import Mathlib

/-
  Verification of the in-place rollout orchestrator of the
  machine-controller-manager repository.

  The definitions below are a shallow embedding of
  `pkg/controller/deployment_inplace.go`.  Kubernetes label maps are
  embedded as association lists, the cluster (machine sets, machines,
  nodes, as seen through the informer caches and mutated through the
  API server) is an explicit `ClusterState` value, and every Go
  function that mutates the cluster becomes a Lean function from state
  to state.  API calls that can fail in Go (PatchMachine, machine-set
  scaling, node updates) are given an explicit fault model so that the
  error paths of the Go code are exercised by the embedding.
  Replica counters are `int32` in Go; no claim depends on 32-bit
  overflow, so they are embedded as unbounded `Int`.
-/

set_option autoImplicit false

namespace MCM

/-! ## Labels (Go `map[string]string`) as association lists -/

abbrev Labels := List (String × String)

/-- Go `m[k]`: lookup with the zero value `""` for a missing key. -/
def getLabel (lbls : Labels) (k : String) : String :=
  match lbls.find? (fun p => p.1 == k) with
  | some p => p.2
  | none => ""

/-- Go `_, ok := m[k]`: key presence. -/
def hasLabelKey (lbls : Labels) (k : String) : Bool :=
  lbls.any (fun p => p.1 == k)

/-- Go `m[k] = v`. -/
def setLabel (lbls : Labels) (k v : String) : Labels :=
  if hasLabelKey lbls k then
    lbls.map (fun p => if p.1 == k then (k, v) else p)
  else
    lbls ++ [(k, v)]

/-- Go `delete(m, k)`. -/
def delLabel (lbls : Labels) (k : String) : Labels :=
  lbls.filter (fun p => p.1 != k)

/-- `MergeStringMaps(base, extra)`: merge with `extra` overwriting `base`. -/
def mergeStringMaps (base extra : Labels) : Labels :=
  extra.foldl (fun acc p => setLabel acc p.1 p.2) base

/-- `labels.SelectorFromSet(sel).Matches(lbls)` for a plain match-labels set. -/
def matchesSelector (sel : Labels) (lbls : Labels) : Bool :=
  sel.all (fun p => getLabel lbls p.1 == p.2)

/-! ### Label keys of `pkg/apis/machine/v1alpha1` used by the rollout.
    Only distinctness of the keys matters to the embedding. -/

def NodeLabelKey : String := "node"
def LabelKeyMachineCandidateForUpdate : String := "node.machine.sapcloud.io/candidate-for-update"
def LabelKeyMachineSelectedForUpdate : String := "node.machine.sapcloud.io/selected-for-update"
def LabelKeyMachineUpdateSuccessful : String := "node.machine.sapcloud.io/update-successful"
def LabelKeyMachineDrainSuccessful : String := "node.machine.sapcloud.io/drain-successful"
def LabelKeyMachineReadyForUpdate : String := "node.machine.sapcloud.io/ready-for-update"

/-! ## Cluster data model -/

/-- The parts of `v1alpha1.MachineSet` the rollout reads: name,
    creation timestamp, `Spec.Replicas`, `Status.AvailableReplicas` and
    `Spec.Selector.MatchLabels`. -/
structure MachineSet where
  name : String
  creationTime : Int
  replicas : Int
  availableReplicas : Int
  selector : Labels
deriving DecidableEq, Repr

/-- The parts of `v1alpha1.Machine` the rollout reads and writes:
    name, labels and the controller owner reference (the name of the
    owning machine set). -/
structure Machine where
  name : String
  owner : String
  labels : Labels
deriving DecidableEq, Repr

/-- The parts of `v1.Node` the rollout reads and writes. -/
structure Node where
  name : String
  labels : Labels
  unschedulable : Bool
deriving DecidableEq, Repr

/-- The fields of `v1alpha1.MachineDeployment` the in-place rollout reads.
    `maxUnavailable` is the already-resolved value of
    `MaxUnavailable(deployment)`. -/
structure MachineDeployment where
  replicas : Int
  maxUnavailable : Int
deriving DecidableEq, Repr

/-- The cluster as seen through the informer caches and mutated through
    the API server during one reconcile. -/
structure ClusterState where
  machineSets : List MachineSet
  machines : List Machine
  nodes : List Node
deriving DecidableEq, Repr

/-! ## Store operations (listers and API-server writes) -/

/-- `machineLister.List(labels.SelectorFromSet(sel))`. -/
def listMachines (s : ClusterState) (sel : Labels) : List Machine :=
  s.machines.filter (fun m => matchesSelector sel m.labels)

/-- `nodeLister.List(labels.SelectorFromSet(sel))`. -/
def listNodes (s : ClusterState) (sel : Labels) : List Node :=
  s.nodes.filter (fun n => matchesSelector sel n.labels)

/-- `nodeLister.Get(name)`. -/
def getNode (s : ClusterState) (name : String) : Option Node :=
  s.nodes.find? (fun n => n.name == name)

def getMachine (s : ClusterState) (name : String) : Option Machine :=
  s.machines.find? (fun m => m.name == name)

def getMachineSet (s : ClusterState) (name : String) : Option MachineSet :=
  s.machineSets.find? (fun ms => ms.name == name)

/-- Replace the labels of the machine called `name`. -/
def patchMachineLabels (s : ClusterState) (name : String) (newLabels : Labels) : ClusterState :=
  { s with machines := s.machines.map (fun m => if m.name == name then { m with labels := newLabels } else m) }

/-- The ownership-transfer patch of `reconcileNewMachineSetInPlace`:
    one API call replacing owner references and labels together. -/
def patchMachineOwnerAndLabels (s : ClusterState) (name : String) (newOwner : String)
    (newLabels : Labels) : ClusterState :=
  { s with machines := s.machines.map (fun m => if m.name == name then { m with owner := newOwner, labels := newLabels } else m) }

/-- Replace the node called `n.name` by `n` (a `Nodes().Update` call). -/
def updateNode (s : ClusterState) (n : Node) : ClusterState :=
  { s with nodes := s.nodes.map (fun n0 => if n0.name == n.name then n else n0) }

/-- Store the new `Spec.Replicas` of the machine set called `name`. -/
def setMSReplicas (s : ClusterState) (name : String) (r : Int) : ClusterState :=
  { s with machineSets := s.machineSets.map (fun ms => if ms.name == name then { ms with replicas := r } else ms) }

/-- `GetReplicaCountForMachineSets`: sum of `Spec.Replicas`. -/
def sumReplicas (l : List MachineSet) : Int :=
  l.foldl (fun acc ms => acc + ms.replicas) 0

/-- `GetAvailableReplicaCountForMachineSets`: sum of `Status.AvailableReplicas`. -/
def sumAvailableReplicas (l : List MachineSet) : Int :=
  l.foldl (fun acc ms => acc + ms.availableReplicas) 0

/-! ## Fault model for fallible API calls -/

/-- Which API mutations fail during the run.  `PatchMachine` and node
    `Update` failures are keyed by object name, scale failures by
    machine-set name. -/
structure FaultModel where
  patchMachineFails : String → Bool
  scaleFails : String → Bool
  updateNodeFails : String → Bool

def noFaults : FaultModel :=
  { patchMachineFails := fun _ => false
    scaleFails := fun _ => false
    updateNodeFails := fun _ => false }

/-! ## Observable events of one reconcile -/

/-- Trace of the API mutations, in execution order.  `scaleEv` records a
    machine-set scale that actually changed the stored size, `transferEv`
    the ownership-transfer patch of a machine to the new machine set. -/
inductive TraceEvent where
  | scaleEv (msName : String) (fromReplicas toReplicas : Int)
  | transferEv (machineName : String) (toMS : String)
  | uncordonEv (nodeName : String)
deriving DecidableEq, Repr

/-- Modelled from the spec: `scaleMachineSetAndRecordEvent` (not under
    `src/`) updates `Spec.Replicas` of the given machine set to
    `newScale` through the API server and reports whether the size
    actually changed; the size comparison uses the in-memory snapshot
    `is.replicas` of the caller.  A no-op scale performs no API write
    and cannot fail. -/
def scaleMachineSet (fm : FaultModel) (s : ClusterState) (is : MachineSet) (newScale : Int) :
    (Bool × Option String) × ClusterState × List TraceEvent :=
  if is.replicas == newScale then
    ((false, none), s, [])
  else if fm.scaleFails is.name then
    ((false, some ("failed to scale machine set " ++ is.name)), s, [])
  else
    ((true, none), setMSReplicas s is.name newScale, [.scaleEv is.name is.replicas newScale])

/-! ## `reconcileNewMachineSetInPlace` (deployment_inplace.go:211-305) -/

/-- Modelled from its use at deployment_inplace.go:245: `getMachineFromNode`
    (not under `src/`) finds the machine whose node-name label names the
    node, an error (here `none`) when there is none. -/
def getMachineFromNode (machines : List Machine) (node : Node) : Option Machine :=
  machines.find? (fun m => getLabel m.labels NodeLabelKey == node.name)

/-- Modelled from the call-site comment at deployment_inplace.go:253:
    `labelsutil.MergeWithOverwriteAndFilter` (not under `src/`) merges
    `newSel` over `base` and drops the keys of `oldSel` that are not in
    `newSel`, so that the machine is no longer selected by the old
    machine set. -/
def mergeWithOverwriteAndFilter (base oldSel newSel : Labels) : Labels :=
  mergeStringMaps (base.filter (fun p => !(hasLabelKey oldSel p.1 && !hasLabelKey newSel p.1))) newSel

/-- Outcome of the machine-set loop of `reconcileNewMachineSetInPlace`:
    the loop either runs to completion (`finished`, carrying the
    per-set transferred count and the total added count) or the Go code
    returns early (`early`). -/
inductive TransferOut where
  | finished (transferred addedNewReplicasCount : Int) (s : ClusterState) (tr : List TraceEvent)
  | early (scaled : Bool) (err : Option String) (s : ClusterState) (tr : List TraceEvent)
deriving Repr

/-- The node loop of `reconcileNewMachineSetInPlace`
    (deployment_inplace.go:244-292) for one old machine set `is`:
    transfer ownership of each updated machine to `newIS`, uncordon its
    node, and on a failed patch re-scale `newIS` up to the already
    added replicas, re-scale `is` down by the transferred count and
    return the patch error. -/
def transferLoop (fm : FaultModel) (is newIS : MachineSet) (machines : List Machine) :
    List Node → ClusterState → List TraceEvent → Int → Int → TransferOut
  | [], s, tr, transferred, added => .finished transferred added s tr
  | node :: rest, s, tr, transferred, added =>
    match getMachineFromNode machines node with
    | none => transferLoop fm is newIS machines rest s tr transferred added
    | some machine =>
      let machineNewLabels := mergeStringMaps
        (mergeWithOverwriteAndFilter machine.labels is.selector newIS.selector)
        [(LabelKeyMachineUpdateSuccessful, "true")]
      if fm.patchMachineFails machine.name then
        let ((scaled1, errUp), s1, tr1) := scaleMachineSet fm s newIS (newIS.replicas + added)
        if errUp.isSome then .early (added > 0) errUp s1 (tr ++ tr1)
        else
          let ((_, errDown), s2, tr2) := scaleMachineSet fm s1 is (is.replicas - transferred)
          if errDown.isSome then
            .early (added > 0) (some ("failed to patch machine " ++ machine.name)) s2 (tr ++ tr1 ++ tr2)
          else
            .early scaled1 (some ("failed to patch machine " ++ machine.name)) s2 (tr ++ tr1 ++ tr2)
      else
        let s1 := patchMachineOwnerAndLabels s machine.name newIS.name machineNewLabels
        let tr1 := tr ++ [.transferEv machine.name newIS.name]
        if fm.updateNodeFails node.name then
          .early false (some ("failed to uncordon the node " ++ node.name)) s1 tr1
        else
          transferLoop fm is newIS machines rest
            (updateNode s1 { node with unschedulable := false })
            (tr1 ++ [.uncordonEv node.name]) (transferred + 1) (added + 1)

/-- The loop over the old machine sets (deployment_inplace.go:226-300):
    after each set's node loop, scale that set down by the number of
    machines transferred out of it. -/
def oldISLoop (fm : FaultModel) (newIS : MachineSet) :
    List MachineSet → ClusterState → List TraceEvent → Int → TransferOut
  | [], s, tr, added => .finished 0 added s tr
  | is :: rest, s, tr, added =>
    let machines := listMachines s is.selector
    let nodes := listNodes s [(LabelKeyMachineUpdateSuccessful, "true")]
    match transferLoop fm is newIS machines nodes s tr 0 added with
    | .early sc e s' tr' => .early sc e s' tr'
    | .finished transferred added' s' tr' =>
      let ((_, err), s'', tr2) := scaleMachineSet fm s' is (is.replicas - transferred)
      if err.isSome then .early (added' > 0) err s'' (tr' ++ tr2)
      else oldISLoop fm newIS rest s'' (tr' ++ tr2) added'

/-- Result of `reconcileNewMachineSetInPlace`: the `(scaled, err)` Go
    return values, the final cluster state and the mutation trace. -/
structure RNewResult where
  scaled : Bool
  err : Option String
  state : ClusterState
  trace : List TraceEvent
deriving Repr

/-- `reconcileNewMachineSetInPlace` (deployment_inplace.go:211-305). -/
def reconcileNewMachineSetInPlace (fm : FaultModel) (s : ClusterState)
    (oldISs : List MachineSet) (newIS : MachineSet) (d : MachineDeployment) : RNewResult :=
  if newIS.replicas == d.replicas then ⟨false, none, s, []⟩
  else if newIS.replicas > d.replicas then
    let ((sc, e), s', tr) := scaleMachineSet fm s newIS d.replicas
    ⟨sc, e, s', tr⟩
  else
    match oldISLoop fm newIS oldISs s [] 0 with
    | .early sc e s' tr => ⟨sc, e, s', tr⟩
    | .finished _ added s' tr =>
      let ((sc, e), s'', tr2) := scaleMachineSet fm s' newIS (newIS.replicas + added)
      ⟨sc, e, s'', tr ++ tr2⟩

/-! ## `selectMachineForUpdate` and its helpers
    (deployment_inplace.go:355-530) -/

/-- `getMachinesForDrain` (deployment_inplace.go:510-530): the machines
    of `is` that carry the candidate-for-update label and not the
    selected-for-update label, truncated to `readyForDrain` many in the
    order the lister returned them. -/
def getMachinesForDrain (s : ClusterState) (is : MachineSet) (readyForDrain : Int) : List Machine :=
  let machines := listMachines s (mergeStringMaps is.selector [(LabelKeyMachineCandidateForUpdate, "true")])
  let machinesWithoutSelectedForUpdate :=
    machines.filter (fun m => !hasLabelKey m.labels LabelKeyMachineSelectedForUpdate)
  if (machinesWithoutSelectedForUpdate.length : Int) > readyForDrain then
    machinesWithoutSelectedForUpdate.take readyForDrain.toNat
  else
    machinesWithoutSelectedForUpdate

/-- The machine loop of `labelMachinesToSelectedForUpdate`
    (deployment_inplace.go:462-492): patch the selected-for-update
    label onto the machine, then onto its node; a node that already
    carries the label is skipped without incrementing the count. -/
def lmLoop (fm : FaultModel) : List Machine → ClusterState → Int → (Int × Option String) × ClusterState
  | [], s, cnt => ((cnt, none), s)
  | machine :: rest, s, cnt =>
    if fm.patchMachineFails machine.name then
      ((cnt, some ("error while adding label selected-for-update " ++ machine.name)), s)
    else
      let s1 := patchMachineLabels s machine.name
        (mergeStringMaps machine.labels [(LabelKeyMachineSelectedForUpdate, "true")])
      if getLabel machine.labels NodeLabelKey != "" then
        match getNode s1 (getLabel machine.labels NodeLabelKey) with
        | none => ((cnt, some ("node not found " ++ getLabel machine.labels NodeLabelKey)), s1)
        | some node =>
          if getLabel node.labels LabelKeyMachineSelectedForUpdate == "true" then
            lmLoop fm rest s1 cnt
          else if fm.updateNodeFails node.name then
            ((cnt, some ("failed to update node " ++ node.name)), s1)
          else
            lmLoop fm rest
              (updateNode s1 { node with labels := setLabel node.labels LabelKeyMachineSelectedForUpdate "true" })
              (cnt + 1)
      else
        lmLoop fm rest s1 (cnt + 1)

/-- `labelMachinesToSelectedForUpdate` (deployment_inplace.go:451-495). -/
def labelMachinesToSelectedForUpdate (fm : FaultModel) (s : ClusterState) (is : MachineSet)
    (newScale : Int) : (Int × Option String) × ClusterState :=
  lmLoop fm (getMachinesForDrain s is (is.replicas - newScale)) s 0

/-- Modelled from the spec: the comparator of
    `MachineSetsByCreationTimestamp` (not under `src/`) orders machine
    sets by ascending creation time; the name is used as a tie-break to
    make the comparator total. -/
def msLE (a b : MachineSet) : Prop :=
  a.creationTime < b.creationTime ∨ (a.creationTime = b.creationTime ∧ a.name ≤ b.name)

instance : DecidableRel msLE := fun a b =>
  if h : a.creationTime < b.creationTime ∨ (a.creationTime = b.creationTime ∧ a.name ≤ b.name)
  then .isTrue h else .isFalse h

instance : IsTotal MachineSet msLE where
  total a b := by
    rcases lt_trichotomy a.creationTime b.creationTime with h | h | h
    · exact Or.inl (Or.inl h)
    · rcases le_total a.name b.name with hn | hn
      · exact Or.inl (Or.inr ⟨h, hn⟩)
      · exact Or.inr (Or.inr ⟨h.symm, hn⟩)
    · exact Or.inr (Or.inl h)

instance : IsTrans MachineSet msLE where
  trans a b c hab hbc := by
    rcases hab with hab | ⟨hab, hab'⟩
    · rcases hbc with hbc | ⟨hbc, _⟩
      · exact Or.inl (hab.trans hbc)
      · exact Or.inl (hbc ▸ hab)
    · rcases hbc with hbc | ⟨hbc, hbc'⟩
      · exact Or.inl (hab ▸ hbc)
      · exact Or.inr ⟨hab.trans hbc, hab'.trans hbc'⟩

/-- `sort.Sort(MachineSetsByCreationTimestamp(oldISs))` at
    deployment_inplace.go:368. -/
def sortMachineSetsByCreationTimestamp (l : List MachineSet) : List MachineSet :=
  List.insertionSort msLE l

/-- The machine-set loop of `selectMachineForUpdate`
    (deployment_inplace.go:372-394). -/
def selLoop (fm : FaultModel) (totalReadyForUpdateCount : Int) :
    List MachineSet → ClusterState → Int → (Int × Option String) × ClusterState
  | [], s, total => ((total, none), s)
  | targetIS :: rest, s, total =>
    if total ≥ totalReadyForUpdateCount then ((total, none), s)
    else if targetIS.replicas == 0 then selLoop fm totalReadyForUpdateCount rest s total
    else
      let readyForUpdateCount := min targetIS.replicas (totalReadyForUpdateCount - total)
      let newReplicasCount := targetIS.replicas - readyForUpdateCount
      if newReplicasCount > targetIS.replicas then
        ((0, some ("invalid request for machine set " ++ targetIS.name)), s)
      else
        match labelMachinesToSelectedForUpdate fm s targetIS newReplicasCount with
        | ((cnt, some e), s') => ((total + cnt, some e), s')
        | ((cnt, none), s') => selLoop fm totalReadyForUpdateCount rest s' (total + cnt)

/-- `selectMachineForUpdate` (deployment_inplace.go:355-397). -/
def selectMachineForUpdate (fm : FaultModel) (s : ClusterState) (allISs oldISs : List MachineSet)
    (d : MachineDeployment) (oldISsMachinesUndergoingUpdate : Int) :
    (Int × Option String) × ClusterState :=
  let minAvailable := d.replicas - d.maxUnavailable
  let availableMachineCount := sumAvailableReplicas allISs - oldISsMachinesUndergoingUpdate
  if availableMachineCount ≤ minAvailable then ((0, none), s)
  else
    selLoop fm (availableMachineCount - minAvailable)
      (sortMachineSetsByCreationTimestamp oldISs) s 0

/-! ## `reconcileOldMachineSetsInPlace` (deployment_inplace.go:307-353) -/

/-- `getMachinesUndergoingUpdate` (deployment_inplace.go:497-508):
    machines of the old machine sets carrying the selected-for-update
    label. -/
def getMachinesUndergoingUpdate (s : ClusterState) (oldISs : List MachineSet) : Int :=
  oldISs.foldl (fun acc is =>
    acc + ((listMachines s (mergeStringMaps is.selector [(LabelKeyMachineSelectedForUpdate, "true")])).length : Int)) 0

/-- The scale-to-zero loop of `reconcileOldMachineSetsInPlace`
    (deployment_inplace.go:319-325). -/
def scaleOldToZeroLoop (fm : FaultModel) : List MachineSet → ClusterState → (Bool × Option String) × ClusterState
  | [], s => ((true, none), s)
  | is :: rest, s =>
    let ((_, err), s', _) := scaleMachineSet fm s is 0
    if err.isSome then ((false, err), s')
    else scaleOldToZeroLoop fm rest s'

/-- `reconcileOldMachineSetsInPlace` (deployment_inplace.go:307-353). -/
def reconcileOldMachineSetsInPlace (fm : FaultModel) (s : ClusterState)
    (allISs oldISs : List MachineSet) (newIS : MachineSet) (d : MachineDeployment) :
    (Bool × Option String) × ClusterState :=
  if sumReplicas oldISs == 0 then ((false, none), s)
  else if newIS.replicas == d.replicas then scaleOldToZeroLoop fm oldISs s
  else
    let allMachinesCount := sumReplicas allISs
    let minAvailable := d.replicas - d.maxUnavailable
    let newISUnavailableMachineCount := newIS.replicas - newIS.availableReplicas
    let undergoing := getMachinesUndergoingUpdate s oldISs
    let maxUpdatePossible := allMachinesCount - minAvailable - newISUnavailableMachineCount - undergoing
    if maxUpdatePossible ≤ 0 then ((false, none), s)
    else
      match selectMachineForUpdate fm s allISs oldISs d undergoing with
      | ((_, some e), s') => ((false, some e), s')
      | ((cnt, none), s') => ((cnt > 0, none), s')

/-! ## `labelNodesBackingMachineSets` (deployment_inplace.go:399-449) -/

/-- The machine loop of `labelNodesBackingMachineSets`
    (deployment_inplace.go:413-444): machines with a non-empty
    node-name label get the candidate-for-update label, and so do their
    nodes; machines without the node-name label are skipped, and a node
    that is absent (`IsNotFound`) or already labeled is skipped. -/
def lnMachineLoop (fm : FaultModel) : List Machine → ClusterState → Option String × ClusterState
  | [], s => (none, s)
  | machine :: rest, s =>
    if getLabel machine.labels NodeLabelKey != "" then
      if fm.patchMachineFails machine.name then
        (some ("error while adding label candidate-for-update " ++ machine.name), s)
      else
        let s1 := patchMachineLabels s machine.name
          (mergeStringMaps machine.labels [(LabelKeyMachineCandidateForUpdate, "true")])
        match getNode s1 (getLabel machine.labels NodeLabelKey) with
        | none => lnMachineLoop fm rest s1
        | some node =>
          if getLabel node.labels LabelKeyMachineCandidateForUpdate == "true" then
            lnMachineLoop fm rest s1
          else if fm.updateNodeFails node.name then
            (some ("failed to update node " ++ node.name), s1)
          else
            lnMachineLoop fm rest
              (updateNode s1 { node with labels := setLabel node.labels LabelKeyMachineCandidateForUpdate "true" })
    else
      lnMachineLoop fm rest s

/-- The machine-set loop of `labelNodesBackingMachineSets`. -/
def lnMSLoop (fm : FaultModel) : List MachineSet → ClusterState → Option String × ClusterState
  | [], s => (none, s)
  | ms :: rest, s =>
    match lnMachineLoop fm (listMachines s ms.selector) s with
    | (some e, s') => (some e, s')
    | (none, s') => lnMSLoop fm rest s'

/-- `labelNodesBackingMachineSets` (deployment_inplace.go:399-449).
    The Go `label` argument is only logged, never used in the patches,
    which hard-code the candidate-for-update label; it is dropped here. -/
def labelNodesBackingMachineSets (fm : FaultModel) (s : ClusterState)
    (machineSets : List MachineSet) : Option String × ClusterState :=
  lnMSLoop fm machineSets s

/-! ## `syncMachineSets` (deployment_inplace.go:131-209) -/

/-- Modelled from its name and use at deployment_inplace.go:137:
    `filterMachinesWithUpdateSuccessfulLabel` (not under `src/`) keeps
    the machines carrying the update-successful label. -/
def filterMachinesWithUpdateSuccessfulLabel (machines : List Machine) : List Machine :=
  machines.filter (fun m => getLabel m.labels LabelKeyMachineUpdateSuccessful == "true")

/-- `removeLabels` patch applied by the API server: the given keys are
    deleted from the stored machine's labels. -/
def patchMachineRemoveLabels (s : ClusterState) (name : String) (keys : List String) : ClusterState :=
  { s with machines := s.machines.map (fun m => if m.name == name then { m with labels := keys.foldl delLabel m.labels } else m) }

/-- The label-removal loop of `syncMachineSets`
    (deployment_inplace.go:150-168). -/
def smsRemoveLabelsLoop (fm : FaultModel) : List Machine → ClusterState → Option String × ClusterState
  | [], s => (none, s)
  | machine :: rest, s =>
    if fm.patchMachineFails machine.name then
      (some ("error while removing label update-successful " ++ machine.name), s)
    else
      smsRemoveLabelsLoop fm rest
        (patchMachineRemoveLabels s machine.name
          [LabelKeyMachineSelectedForUpdate, LabelKeyMachineDrainSuccessful, LabelKeyMachineUpdateSuccessful])

/-- The uncordon loop of `syncMachineSets`
    (deployment_inplace.go:171-191): every machine of the new selector
    must name an existing node, which is uncordoned and loses the
    update-successful and ready-for-update labels. -/
def smsUncordonLoop (fm : FaultModel) : List Machine → ClusterState → Option String × ClusterState
  | [], s => (none, s)
  | machine :: rest, s =>
    if !hasLabelKey machine.labels NodeLabelKey then
      (some ("node label not found for machine " ++ machine.name), s)
    else
      match getNode s (getLabel machine.labels NodeLabelKey) with
      | none => (some ("failed to get node " ++ getLabel machine.labels NodeLabelKey), s)
      | some node =>
        if fm.updateNodeFails node.name then
          (some ("failed to uncordon the node " ++ node.name), s)
        else
          smsUncordonLoop fm rest
            (updateNode s
              { node with
                labels := delLabel (delLabel node.labels LabelKeyMachineUpdateSuccessful) LabelKeyMachineReadyForUpdate
                unschedulable := false })

/-- The old-machine-set scale-down loop of `syncMachineSets`
    (deployment_inplace.go:193-206). -/
def smsScaleDownOldLoop (fm : FaultModel) : List MachineSet → ClusterState → Option String × ClusterState
  | [], s => (none, s)
  | is :: rest, s =>
    let machines := listMachines s is.selector
    if (machines.length : Int) < is.replicas then
      let ((_, err), s', _) := scaleMachineSet fm s is (machines.length : Int)
      if err.isSome then (some ("failed to scale down machine set " ++ is.name), s')
      else smsScaleDownOldLoop fm rest s'
    else
      smsScaleDownOldLoop fm rest s

/-- The conditional scale-up of the new machine set at the head of
    `syncMachineSets` (deployment_inplace.go:140-147). -/
def smsScaleStep (fm : FaultModel) (s : ClusterState) (newIS : MachineSet)
    (machines withLbl : List Machine) : Option String × ClusterState :=
  if (machines.length : Int) > newIS.replicas ∧ 0 < withLbl.length then
    let scaleUpBy := min (withLbl.length : Int) ((machines.length : Int) - newIS.replicas)
    let ((_, err), s', _) := scaleMachineSet fm s newIS (newIS.replicas + scaleUpBy)
    (err, s')
  else (none, s)

/-- `syncMachineSets` (deployment_inplace.go:131-209). -/
def syncMachineSets (fm : FaultModel) (s : ClusterState) (oldISs : List MachineSet)
    (newIS : MachineSet) (_d : MachineDeployment) : Option String × ClusterState :=
  let machines := listMachines s newIS.selector
  let withLbl := filterMachinesWithUpdateSuccessfulLabel machines
  match smsScaleStep fm s newIS machines withLbl with
  | (some e, s') => (some e, s')
  | (none, s1) =>
    match smsRemoveLabelsLoop fm withLbl s1 with
    | (some e, s') => (some e, s')
    | (none, s2) =>
      match smsUncordonLoop fm machines s2 with
      | (some e, s') => (some e, s')
      | (none, s3) => smsScaleDownOldLoop fm oldISs s3

/-! ## Machine health and creation-failure handling of the machine
    reconciler.  The reconciler itself is not under `src/` (only its
    tests are), so these are modelled from the spec. -/

inductive CondStatus where
  | statusTrue
  | statusFalse
  | statusUnknown
deriving DecidableEq, Repr

/-- One entry of `machine.Status.Conditions`. -/
structure NodeCond where
  condType : String
  condStatus : CondStatus
deriving DecidableEq, Repr

/-- The disqualifying condition types the tests configure
    (machine_test.go:49, the comma list
    ReadonlyFilesystem,KernelDeadlock,DiskPressure,NetworkUnavailable). -/
def defaultDisqualifyingConditions : List String :=
  ["ReadonlyFilesystem", "KernelDeadlock", "DiskPressure", "NetworkUnavailable"]

/-- Modelled from the spec: `isHealthy` (not under `src/`; §4.C health
    tracking) recomputes
    healthy = NodeReady==True ∧ ∀ c ∈ disqualifyingConditions : c.Status==False
    over the machine's mirrored node conditions. -/
def isHealthy (disqualifying : List String) (conds : List NodeCond) : Bool :=
  (conds.any (fun c => c.condType == "Ready" && c.condStatus == CondStatus.statusTrue)) &&
  (conds.all (fun c => !(disqualifying.contains c.condType) || c.condStatus == CondStatus.statusFalse))

inductive MachinePhase where
  | pending
  | available
  | running
  | unknownPhase
  | failed
  | crashLoopBackOff
  | terminating
deriving DecidableEq, Repr

inductive RetryInterval where
  | shortRetry
  | mediumRetry
  | longRetry
deriving DecidableEq, Repr

inductive ProviderErrCode where
  | resourceExhausted
  | internalErr
  | deadlineExceeded
  | uninitialized
deriving DecidableEq, Repr

/-- The machine's observable outcome of a failed `CreateMachine` call:
    `currentStatus.phase`, `lastOperation.errorCode` and the retry
    bucket the reconcile returns. -/
structure CreateFailOutcome where
  phase : MachinePhase
  errorCode : String
  retry : RetryInterval
deriving DecidableEq, Repr

/-- Modelled from the spec: the error handling of `triggerCreationFlow`
    (not under `src/`; §4.C step 4 and §7).  On `ResourceExhausted` →
    CrashLoopBackOff, LongRetry; on `Internal` or `DeadlineExceeded` →
    CrashLoopBackOff, MediumRetry; on `Uninitialized` →
    CrashLoopBackOff, ShortRetry; in each case the phase becomes Failed
    instead once the machine's creation timestamp is older than
    MachineCreationTimeout, and `lastOperation.errorCode` records the
    provider code. -/
def triggerCreationFlowOnError (code : ProviderErrCode) (creationOlderThanTimeout : Bool) :
    CreateFailOutcome :=
  let phase := if creationOlderThanTimeout then MachinePhase.failed else MachinePhase.crashLoopBackOff
  match code with
  | .resourceExhausted => ⟨phase, "ResourceExhausted", .longRetry⟩
  | .internalErr => ⟨phase, "Internal", .mediumRetry⟩
  | .deadlineExceeded => ⟨phase, "DeadlineExceeded", .mediumRetry⟩
  | .uninitialized => ⟨phase, "Uninitialized", .shortRetry⟩

/-! ## Concrete cluster states for witnesses and counterexamples -/

/-- Old machine set at 2 replicas, both available. -/
def msOldA : MachineSet := ⟨"old", 0, 2, 2, [("ms", "old")]⟩

/-- New machine set at 1 replica, none available. -/
def msNewA : MachineSet := ⟨"new", 1, 1, 0, [("ms", "new")]⟩

/-- New machine set at 1 replica, 1 available. -/
def msNewB : MachineSet := ⟨"new", 1, 1, 1, [("ms", "new")]⟩

/-- Deployment of 3 replicas with maxUnavailable 1 (the test deployment
    of the `deployment_inplace` suite). -/
def depA : MachineDeployment := ⟨3, 1⟩

/-- State for the C4 witness: machine sets only, no machines. -/
def stC4 : ClusterState := ⟨[msOldA, msNewA], [], []⟩

/-! ### Trace observables -/

def isScaleEv : TraceEvent → Bool
  | .scaleEv _ _ _ => true
  | _ => false

/-- A scale event of the machine set called `msName`. -/
def isScaleEvOf (msName : String) : TraceEvent → Bool
  | .scaleEv n _ _ => n == msName
  | _ => false

def isTransferEv : TraceEvent → Bool
  | .transferEv _ _ => true
  | _ => false

/-- The number of ownership transfers recorded in a trace. -/
def countTransferEvents (tr : List TraceEvent) : Int :=
  ((tr.filter isTransferEv).length : Int)

/-- No rollback: every machine a trace records as transferred to the
    new machine set is owned by it in the state. -/
def ownersTransferred (newISName : String) (s : ClusterState) (tr : List TraceEvent) : Prop :=
  ∀ mn msn, TraceEvent.transferEv mn msn ∈ tr →
    msn = newISName ∧ ∀ m ∈ s.machines, m.name = mn → m.owner = newISName

/-- Machine sets of the store are consistent with the two in-memory
    snapshots `is` and `newIS` the reconciler works on. -/
def storeConsistent (is newIS : MachineSet) (s : ClusterState) : Prop :=
  ∀ ms' ∈ s.machineSets,
    (ms'.name = newIS.name → ms'.replicas = newIS.replicas) ∧
    (ms'.name = is.name → ms'.replicas = is.replicas)

/-! ### The spec's wording of victim choice, for comparison -/

/-- Lexicographic character order, an executable string order. -/
def charListLE : List Char → List Char → Bool
  | [], _ => true
  | _ :: _, [] => false
  | c :: cs, d :: ds =>
    if c.toNat < d.toNat then true
    else if d.toNat < c.toNat then false
    else charListLE cs ds

/-- Name order on machines (lexicographic on the name). -/
def machineNameLE (a b : Machine) : Bool :=
  charListLE a.name.data b.name.data

/-- The victim choice as the spec words it ("victims within an MS
    chosen deterministically (sorted by name)"): candidates sorted by
    name before truncation.  `getMachinesForDrain` is compared against
    this refinement below. -/
def getMachinesForDrainSortedByName (s : ClusterState) (is : MachineSet) (readyForDrain : Int) :
    List Machine :=
  let machines := listMachines s (mergeStringMaps is.selector [(LabelKeyMachineCandidateForUpdate, "true")])
  let cand := machines.filter (fun m => !hasLabelKey m.labels LabelKeyMachineSelectedForUpdate)
  let sortedCand := List.insertionSort (fun a b => machineNameLE a b = true) cand
  if (sortedCand.length : Int) > readyForDrain then
    sortedCand.take readyForDrain.toNat
  else
    sortedCand

/-! ### Concrete states for C2, C3 and C5 -/

/-- Machine of the old set backed by node n0. -/
def mT0 : Machine := ⟨"m0", "old", [("ms", "old"), (NodeLabelKey, "n0")]⟩

/-- Machine of the old set backed by node n1. -/
def mT1 : Machine := ⟨"m1", "old", [("ms", "old"), (NodeLabelKey, "n1")]⟩

/-- Node n0, updated successfully and still cordoned. -/
def nUpd0 : Node := ⟨"n0", [(LabelKeyMachineUpdateSuccessful, "true")], true⟩

/-- Node n1, updated successfully and still cordoned. -/
def nUpd1 : Node := ⟨"n1", [(LabelKeyMachineUpdateSuccessful, "true")], true⟩

/-- State for C2/C3: old set of two updated machines, new set at 1. -/
def stC2 : ClusterState := ⟨[msOldA, msNewB], [mT0, mT1], [nUpd0, nUpd1]⟩

/-- Fault model for C2/C3: the ownership patch of machine m1 fails. -/
def fmC2 : FaultModel :=
  { patchMachineFails := fun n => n == "m1"
    scaleFails := fun _ => false
    updateNodeFails := fun _ => false }

/-- Candidate machine named m-b, first in lister order. -/
def mCandB : Machine := ⟨"m-b", "old", [("ms", "old"), (LabelKeyMachineCandidateForUpdate, "true")]⟩

/-- Candidate machine named m-a, second in lister order. -/
def mCandA : Machine := ⟨"m-a", "old", [("ms", "old"), (LabelKeyMachineCandidateForUpdate, "true")]⟩

/-- State for C5: two candidates, listed in the order m-b, m-a. -/
def stC5 : ClusterState := ⟨[msOldA, msNewB], [mCandB, mCandA], []⟩

/-- The same cluster as `stC5` with the machines listed in the other
    order. -/
def stC5perm : ClusterState := ⟨[msOldA, msNewB], [mCandA, mCandB], []⟩

/-! ### Predicates for the syncMachineSets and candidate-labeling claims -/

/-- A node left by a successful `syncMachineSets` run: uncordoned and
    without the update-successful / ready-for-update label keys. -/
def nodeUncordonedClean (n : Node) : Prop :=
  n.unschedulable = false ∧
  hasLabelKey n.labels LabelKeyMachineUpdateSuccessful = false ∧
  hasLabelKey n.labels LabelKeyMachineReadyForUpdate = false

/-- Every stored machine called `name` carries candidate-for-update=true. -/
def machineCandTrue (t : ClusterState) (name : String) : Prop :=
  ∀ m' ∈ t.machines, m'.name = name →
    getLabel m'.labels LabelKeyMachineCandidateForUpdate = "true"

/-- Every stored node called `name` carries candidate-for-update=true. -/
def nodeCandTrue (t : ClusterState) (name : String) : Prop :=
  ∀ n' ∈ t.nodes, n'.name = name →
    getLabel n'.labels LabelKeyMachineCandidateForUpdate = "true"

/-- The machine store evolves during candidate labeling: names and all
    label keys other than candidate-for-update are preserved pointwise. -/
def machinesEvolved (l0 l1 : List Machine) : Prop :=
  List.Forall₂ (fun m0 m1 => m1.name = m0.name ∧
    ∀ k, k ≠ LabelKeyMachineCandidateForUpdate → getLabel m1.labels k = getLabel m0.labels k) l0 l1

/-- The node store evolves during candidate labeling: names and all
    label keys other than candidate-for-update are preserved pointwise,
    and candidate-for-update=true is never cleared. -/
def nodesEvolved (l0 l1 : List Node) : Prop :=
  List.Forall₂ (fun n0 n1 => n1.name = n0.name ∧ n1.unschedulable = n0.unschedulable ∧
    (∀ k, k ≠ LabelKeyMachineCandidateForUpdate → getLabel n1.labels k = getLabel n0.labels k) ∧
    (getLabel n0.labels LabelKeyMachineCandidateForUpdate = "true" →
      getLabel n1.labels LabelKeyMachineCandidateForUpdate = "true")) l0 l1

/-! ### Concrete states for C6, C9 and C10 -/

/-- Machine of the new set backed by node na. -/
def mSyncA : Machine := ⟨"sa", "new", [("ms", "new"), (NodeLabelKey, "na")]⟩

/-- Machine of the new set without a node-name label. -/
def mSyncB : Machine := ⟨"sb", "new", [("ms", "new")]⟩

/-- Cordoned node na. -/
def nSyncA : Node := ⟨"na", [], true⟩

/-- State for C9: the second machine of the new set has no node-name
    label. -/
def stC9 : ClusterState := ⟨[msNewB], [mSyncA, mSyncB], [nSyncA]⟩

/-- Machine of the new set still carrying selected-for-update but not
    update-successful. -/
def mSel : Machine :=
  ⟨"msel", "new", [("ms", "new"), (NodeLabelKey, "nsel"), (LabelKeyMachineSelectedForUpdate, "true")]⟩

/-- Cordoned node of `mSel`, still carrying candidate/selected labels. -/
def nSel : Node :=
  ⟨"nsel", [(LabelKeyMachineCandidateForUpdate, "true"), (LabelKeyMachineSelectedForUpdate, "true")], true⟩

/-- State for C10. -/
def stC10 : ClusterState := ⟨[msNewB], [mSel], [nSel]⟩

/-- Machine of the old set with no node-name label. -/
def mNoNode : Machine := ⟨"mn", "old", [("ms", "old")]⟩

/-- State for the C6 counterexample. -/
def stC6 : ClusterState := ⟨[msOldA], [mNoNode], []⟩

/-- Machine of the old set backed by node nw. -/
def mWith : Machine := ⟨"mw", "old", [("ms", "old"), (NodeLabelKey, "nw")]⟩

/-- Unlabeled node nw. -/
def nW : Node := ⟨"nw", [], false⟩

/-- State for the C6 witness. -/
def stC6b : ClusterState := ⟨[msOldA], [mWith], [nW]⟩

/-- Machine of the new set that finished its in-place update. -/
def mUpd : Machine :=
  ⟨"mu", "new", [("ms", "new"), (NodeLabelKey, "nu"), (LabelKeyMachineSelectedForUpdate, "true"),
    (LabelKeyMachineDrainSuccessful, "true"), (LabelKeyMachineUpdateSuccessful, "true")]⟩

/-- Cordoned node of `mUpd` with update labels. -/
def nU : Node :=
  ⟨"nu", [(LabelKeyMachineUpdateSuccessful, "true"), (LabelKeyMachineReadyForUpdate, "true")], true⟩

/-- State for the C10 witness. -/
def stC10b : ClusterState := ⟨[msNewB], [mUpd], [nU]⟩

/-! # Theorems -/

/-! ### Counting lemmas for the selection loop -/

theorem lmLoop_count_ge (fm : FaultModel) (machines : List Machine) :
    ∀ (s : ClusterState) (cnt : Int), cnt ≤ (lmLoop fm machines s cnt).1.1 := by
  induction machines with
  | nil => intro s cnt; simp [lmLoop]
  | cons machine rest ih =>
    intro s cnt
    simp only [lmLoop]
    split
    · exact le_refl _
    · split
      · split
        · exact le_refl _
        · split
          · exact ih _ _
          · split
            · exact le_refl _
            · exact le_trans (by omega) (ih _ _)
      · exact le_trans (by omega) (ih _ _)

theorem lmLoop_count_le (fm : FaultModel) (machines : List Machine) :
    ∀ (s : ClusterState) (cnt : Int),
      (lmLoop fm machines s cnt).1.1 ≤ cnt + machines.length := by
  induction machines with
  | nil => intro s cnt; simp [lmLoop]
  | cons machine rest ih =>
    intro s cnt
    simp only [lmLoop, List.length_cons]
    split
    · push_cast; omega
    · split
      · split
        · push_cast; omega
        · split
          · exact le_trans (ih _ _) (by push_cast; omega)
          · split
            · push_cast; omega
            · exact le_trans (ih _ _) (by push_cast; omega)
      · exact le_trans (ih _ _) (by push_cast; omega)

theorem getMachinesForDrain_length_le (s : ClusterState) (is : MachineSet) (readyForDrain : Int) :
    ((getMachinesForDrain s is readyForDrain).length : Int) ≤ max 0 readyForDrain := by
  simp only [getMachinesForDrain]
  split
  · simp [List.length_take]
    omega
  · rename_i h
    simp only [not_lt] at h
    omega

theorem labelMachinesToSelectedForUpdate_count_le (fm : FaultModel) (s : ClusterState)
    (is : MachineSet) (newScale : Int) :
    (labelMachinesToSelectedForUpdate fm s is newScale).1.1 ≤ max 0 (is.replicas - newScale) := by
  simp only [labelMachinesToSelectedForUpdate]
  have h1 := lmLoop_count_le fm (getMachinesForDrain s is (is.replicas - newScale)) s 0
  have h2 := getMachinesForDrain_length_le s is (is.replicas - newScale)
  omega

theorem labelMachinesToSelectedForUpdate_count_nonneg (fm : FaultModel) (s : ClusterState)
    (is : MachineSet) (newScale : Int) :
    0 ≤ (labelMachinesToSelectedForUpdate fm s is newScale).1.1 := by
  simp only [labelMachinesToSelectedForUpdate]
  exact lmLoop_count_ge fm _ s 0

theorem selLoop_total_le (fm : FaultModel) (tc : Int) (l : List MachineSet) :
    ∀ (s : ClusterState) (total : Int), 0 ≤ total → total ≤ tc →
      (selLoop fm tc l s total).1.1 ≤ tc := by
  induction l with
  | nil => intro s total _ h1; simpa [selLoop] using h1
  | cons targetIS rest ih =>
    intro s total h0 h1
    simp only [selLoop]
    split
    · exact h1
    · split
      · exact ih s total h0 h1
      · split
        · simpa using by omega
        · rename_i hlt _ hvalid
          simp only [not_le] at hlt
          rcases hres : labelMachinesToSelectedForUpdate fm s targetIS
              (targetIS.replicas - min targetIS.replicas (tc - total)) with ⟨⟨cnt, err⟩, s'⟩
          have hle := labelMachinesToSelectedForUpdate_count_le fm s targetIS
            (targetIS.replicas - min targetIS.replicas (tc - total))
          have hge := labelMachinesToSelectedForUpdate_count_nonneg fm s targetIS
            (targetIS.replicas - min targetIS.replicas (tc - total))
          rw [hres] at hle hge
          simp only at hle hge
          cases err with
          | some e => simp [hres]; omega
          | none => simp only [hres]; exact ih s' (total + cnt) (by omega) (by omega)

/-- **C1.** The availability budget of the in-place rollout:
    `selectMachineForUpdate` never selects more machines for update
    than `availableMachineCount − (spec.replicas − maxUnavailable)`
    (and selects none at all when that budget is not positive), where
    `availableMachineCount` is the available replicas of all machine
    sets minus the machines already undergoing update.  Consequently
    the available machines not selected for update,
    `available(all) − (undergoing + newly selected)`, stay at or above
    `spec.replicas − maxUnavailable` whenever they were before the
    selection.  This holds in every reconcile, for every fault model,
    also on the mid-batch error paths. -/
theorem C1_availability_budget (fm : FaultModel) (s : ClusterState)
    (allISs oldISs : List MachineSet) (d : MachineDeployment) (undergoing : Int) :
    (selectMachineForUpdate fm s allISs oldISs d undergoing).1.1
        ≤ max 0 (sumAvailableReplicas allISs - undergoing - (d.replicas - d.maxUnavailable)) ∧
    (sumAvailableReplicas allISs - undergoing ≤ d.replicas - d.maxUnavailable →
      (selectMachineForUpdate fm s allISs oldISs d undergoing).1.1 = 0) ∧
    min (d.replicas - d.maxUnavailable) (sumAvailableReplicas allISs - undergoing)
      ≤ sumAvailableReplicas allISs
        - (undergoing + (selectMachineForUpdate fm s allISs oldISs d undergoing).1.1) := by
  rcases le_or_lt (sumAvailableReplicas allISs - undergoing) (d.replicas - d.maxUnavailable)
    with hle | hlt
  · have hsel : selectMachineForUpdate fm s allISs oldISs d undergoing = ((0, none), s) := by
      simp only [selectMachineForUpdate]
      exact if_pos hle
    rw [hsel]
    refine ⟨le_max_left _ _, fun _ => rfl, ?_⟩
    show min (d.replicas - d.maxUnavailable) (sumAvailableReplicas allISs - undergoing)
      ≤ sumAvailableReplicas allISs - (undergoing + 0)
    omega
  · have hsel : selectMachineForUpdate fm s allISs oldISs d undergoing
        = selLoop fm (sumAvailableReplicas allISs - undergoing - (d.replicas - d.maxUnavailable))
            (sortMachineSetsByCreationTimestamp oldISs) s 0 := by
      simp only [selectMachineForUpdate]
      exact if_neg (by omega)
    rw [hsel]
    have hb := selLoop_total_le fm
      (sumAvailableReplicas allISs - undergoing - (d.replicas - d.maxUnavailable))
      (sortMachineSetsByCreationTimestamp oldISs) s 0 (le_refl 0) (by omega)
    refine ⟨?_, fun hc => absurd hc (by omega), ?_⟩
    · exact le_trans hb (le_max_right _ _)
    · rw [min_eq_left (le_of_lt hlt)]
      omega

/-- Witness for C1: with only the new machine set (1 available) against
    a deployment of 3 with maxUnavailable 1, the budget is exhausted
    and no machine is selected. -/
theorem C1_availability_budget_witness :
    sumAvailableReplicas [msNewB] - 0 ≤ depA.replicas - depA.maxUnavailable ∧
    (selectMachineForUpdate noFaults stC4 [msNewB] [msOldA] depA 0).1.1 = 0 :=
  ⟨by decide, (C1_availability_budget noFaults stC4 [msNewB] [msOldA] depA 0).2.1 (by decide)⟩

/-- **C4.** In `reconcileOldMachineSetsInPlace`, once the early branches
    do not fire (old replica count non-zero, new machine set not yet at
    the deployment's replicas), the number of machines that may newly
    be selected for update is
    `maxUpdatePossible = allMachinesCount − (spec.replicas − maxUnavailable)
    − (newIS.Spec.Replicas − newIS.Status.AvailableReplicas) − alreadySelected`;
    when it is ≤ 0 the function selects no machines and returns `false`
    without mutating any machine set (the state is returned unchanged). -/
theorem C4_maxUpdatePossible_nonpositive_no_mutation
    (fm : FaultModel) (s : ClusterState) (allISs oldISs : List MachineSet)
    (newIS : MachineSet) (d : MachineDeployment)
    (h0 : sumReplicas oldISs ≠ 0)
    (h1 : newIS.replicas ≠ d.replicas)
    (h2 : sumReplicas allISs - (d.replicas - d.maxUnavailable)
        - (newIS.replicas - newIS.availableReplicas)
        - getMachinesUndergoingUpdate s oldISs ≤ 0) :
    reconcileOldMachineSetsInPlace fm s allISs oldISs newIS d = ((false, none), s) := by
  unfold reconcileOldMachineSetsInPlace
  simp [h0, h1, h2]

/-- Witness for C4: the test scenario with the old set at 2/2, the new
    set at 1 replica with 0 available, deployment 3 with
    maxUnavailable 1, where `maxUpdatePossible = 3 − 2 − 1 − 0 = 0`. -/
theorem C4_maxUpdatePossible_witness :
    sumReplicas [msOldA] ≠ 0 ∧ msNewA.replicas ≠ depA.replicas ∧
    (sumReplicas [msOldA, msNewA] - (depA.replicas - depA.maxUnavailable)
      - (msNewA.replicas - msNewA.availableReplicas)
      - getMachinesUndergoingUpdate stC4 [msOldA] ≤ 0) ∧
    reconcileOldMachineSetsInPlace noFaults stC4 [msOldA, msNewA] [msOldA] msNewA depA
      = ((false, none), stC4) :=
  ⟨by decide, by decide, by decide,
    C4_maxUpdatePossible_nonpositive_no_mutation noFaults stC4 [msOldA, msNewA] [msOldA]
      msNewA depA (by decide) (by decide) (by decide)⟩

/-- **C7.** When `CreateMachine` fails and the machine is younger than
    MachineCreationTimeout: provider code ResourceExhausted gives phase
    CrashLoopBackOff, errorCode ResourceExhausted and LongRetry, and
    provider code Internal gives phase CrashLoopBackOff, errorCode
    Internal and MediumRetry. -/
theorem C7_createMachine_error_outcomes (timedOut : Bool) (h : timedOut = false) :
    triggerCreationFlowOnError .resourceExhausted timedOut
        = ⟨.crashLoopBackOff, "ResourceExhausted", .longRetry⟩ ∧
    triggerCreationFlowOnError .internalErr timedOut
        = ⟨.crashLoopBackOff, "Internal", .mediumRetry⟩ := by
  subst h
  exact ⟨rfl, rfl⟩

/-- Witness for C7 at `timedOut = false`. -/
theorem C7_createMachine_error_outcomes_witness :
    triggerCreationFlowOnError .resourceExhausted false
        = ⟨.crashLoopBackOff, "ResourceExhausted", .longRetry⟩ ∧
    triggerCreationFlowOnError .internalErr false
        = ⟨.crashLoopBackOff, "Internal", .mediumRetry⟩ :=
  C7_createMachine_error_outcomes false rfl

/-- **C8.** The machine health predicate holds iff the NodeReady
    condition has status True and every condition whose type is in the
    configured disqualifying set has status False; appending a
    condition whose type is outside the set and not NodeReady (for
    example MemoryPressure) never changes the result, and a
    disqualifying condition with status Unknown makes the machine
    unhealthy. -/
theorem C8_isHealthy_characterization (disq : List String) (conds : List NodeCond) :
    (isHealthy disq conds = true ↔
      ((∃ c ∈ conds, c.condType = "Ready" ∧ c.condStatus = CondStatus.statusTrue) ∧
        ∀ c ∈ conds, c.condType ∈ disq → c.condStatus = CondStatus.statusFalse)) ∧
    (∀ t st, t ∉ disq → t ≠ "Ready" →
      isHealthy disq (conds ++ [⟨t, st⟩]) = isHealthy disq conds) ∧
    (∀ c ∈ conds, c.condType ∈ disq → c.condStatus = CondStatus.statusUnknown →
      isHealthy disq conds = false) := by
  refine ⟨?_, ?_, ?_⟩
  · simp [isHealthy, List.any_eq_true, List.all_eq_true]
    intro x hx h1 h2
    constructor
    · intro h c hc hd
      rcases h c hc with h' | h'
      · exact absurd hd h'
      · exact h'
    · intro h c hc
      by_cases hd : c.condType ∈ disq
      · exact Or.inr (h c hc hd)
      · exact Or.inl hd
  · intro t st ht hr
    have hf : (t == "Ready") = false := beq_eq_false_iff_ne.mpr hr
    simp [isHealthy, ht, hf]
  · intro c hc hdisq hunk
    have : ¬ (isHealthy disq conds = true) := by
      simp only [isHealthy, Bool.and_eq_true, List.all_eq_true]
      rintro ⟨-, hall⟩
      have := hall c hc
      simp [hdisq, hunk] at this
    exact Bool.eq_false_iff.mpr (fun h => this h)

/-- Witness for C8: a disqualifying DiskPressure condition with status
    Unknown makes an otherwise healthy machine unhealthy (the
    `isHealthy` test table, machine_test.go:95). -/
theorem C8_isHealthy_witness :
    isHealthy defaultDisqualifyingConditions
      [⟨"Ready", CondStatus.statusTrue⟩, ⟨"DiskPressure", CondStatus.statusUnknown⟩] = false :=
  (C8_isHealthy_characterization defaultDisqualifyingConditions
    [⟨"Ready", CondStatus.statusTrue⟩, ⟨"DiskPressure", CondStatus.statusUnknown⟩]).2.2
    ⟨"DiskPressure", CondStatus.statusUnknown⟩ (by simp) (by simp [defaultDisqualifyingConditions]) rfl

/-- **C5 counterexample.** Victims within a machine set are not chosen
    sorted by name: with the lister returning the candidates in the
    order m-b, m-a, `getMachinesForDrain` picks m-b, while the
    name-sorted choice the claim describes would pick m-a. -/
theorem C5_counterexample_not_sorted_by_name :
    (getMachinesForDrain stC5 msOldA 1).map Machine.name = ["m-b"] ∧
    (getMachinesForDrainSortedByName stC5 msOldA 1).map Machine.name = ["m-a"] := by
  constructor
  · rfl
  · decide

/-- **C5 (amended).** Old machine sets are indeed processed in
    ascending creation-time order: `selectMachineForUpdate` iterates
    `sortMachineSetsByCreationTimestamp`, which sorts (a permutation of
    the input) by the creation-time/name order `msLE`.  Within a
    machine set, however, the victims are the first candidates in the
    order the machine lister returned them, not sorted by name: two
    clusters whose machine lists are permutations of each other can
    select different machines. -/
theorem C5_amended_deterministic_ordering (l : List MachineSet) :
    List.Pairwise msLE (sortMachineSetsByCreationTimestamp l) ∧
    (sortMachineSetsByCreationTimestamp l).Perm l ∧
    stC5perm.machines.Perm stC5.machines ∧
    getMachinesForDrain stC5 msOldA 1 ≠ getMachinesForDrain stC5perm msOldA 1 := by
  refine ⟨List.sorted_insertionSort msLE l, List.perm_insertionSort msLE l,
    List.Perm.swap mCandB mCandA [], by decide⟩

/-- **C2 counterexample.** With two updated machines in the old set and
    the ownership patch of the second one failing, the error path of
    `reconcileNewMachineSetInPlace` scales the new machine set up
    (1 → 2) before scaling the old machine set down (2 → 1): after the
    successful transfer of machine m0 the trace records the new-set
    scale-up at index 2 and the old-set scale-down at index 3.  This
    refutes "the scale-up of the new MS is always done after the
    scale-down of the corresponding old MS — never before" on the
    mid-batch error path. -/
theorem C2_counterexample_scale_up_first :
    (reconcileNewMachineSetInPlace fmC2 stC2 [msOldA] msNewB depA).trace
      = [.transferEv "m0" "new", .uncordonEv "n0",
         .scaleEv "new" 1 2, .scaleEv "old" 2 1] ∧
    (reconcileNewMachineSetInPlace fmC2 stC2 [msOldA] msNewB depA).err.isSome = true := by
  constructor <;> rfl

/-! ### No-fault traces of `reconcileNewMachineSetInPlace` -/

theorem scaleMachineSet_noFaults (s : ClusterState) (is : MachineSet) (k : Int) :
    ∃ sc s' tr2, scaleMachineSet noFaults s is k = ((sc, none), s', tr2) ∧
      (tr2 = [] ∨ tr2 = [.scaleEv is.name is.replicas k]) := by
  unfold scaleMachineSet
  split
  · exact ⟨false, s, [], rfl, Or.inl rfl⟩
  · split
    · rename_i hfail
      exact absurd hfail (by simp [noFaults])
    · exact ⟨true, setMSReplicas s is.name k, _, rfl, Or.inr rfl⟩

theorem isScaleEvOf_eq_false_of_not_scale (m : String) (e : TraceEvent)
    (h : isScaleEv e = false) : isScaleEvOf m e = false := by
  cases e <;> simp_all [isScaleEv, isScaleEvOf]

theorem transferLoop_noFaults (is newIS : MachineSet) (machines : List Machine)
    (nodes : List Node) :
    ∀ (s : ClusterState) (tr : List TraceEvent) (transferred added : Int),
      ∃ t a s' tr2, transferLoop noFaults is newIS machines nodes s tr transferred added
          = .finished t a s' (tr ++ tr2) ∧ ∀ e ∈ tr2, isScaleEv e = false := by
  induction nodes with
  | nil =>
    intro s tr transferred added
    exact ⟨transferred, added, s, [], by simp [transferLoop], by simp⟩
  | cons node rest ih =>
    intro s tr transferred added
    simp only [transferLoop]
    cases hm : getMachineFromNode machines node with
    | none => exact ih s tr transferred added
    | some machine =>
      obtain ⟨t, a, s', tr2, heq, hsc⟩ := ih
        (updateNode
          (patchMachineOwnerAndLabels s machine.name newIS.name
            (mergeStringMaps (mergeWithOverwriteAndFilter machine.labels is.selector newIS.selector)
              [(LabelKeyMachineUpdateSuccessful, "true")]))
          { node with unschedulable := false })
        (tr ++ [TraceEvent.transferEv machine.name newIS.name] ++ [TraceEvent.uncordonEv node.name])
        (transferred + 1) (added + 1)
      refine ⟨t, a, s', [TraceEvent.transferEv machine.name newIS.name, TraceEvent.uncordonEv node.name] ++ tr2, ?_, ?_⟩
      · exact heq.trans (by simp)
      · intro e he
        rcases List.mem_append.mp he with he' | he'
        · simp only [List.mem_cons, List.mem_singleton, List.not_mem_nil, or_false] at he'
          rcases he' with h | h <;> (subst h; rfl)
        · exact hsc e he'

theorem oldISLoop_noFaults (newIS : MachineSet) :
    ∀ (oldISs : List MachineSet), (∀ is ∈ oldISs, is.name ≠ newIS.name) →
      ∀ (s : ClusterState) (tr : List TraceEvent) (added : Int),
        ∃ a s' tr2, oldISLoop noFaults newIS oldISs s tr added = .finished 0 a s' (tr ++ tr2) ∧
          ∀ e ∈ tr2, isScaleEvOf newIS.name e = false := by
  intro oldISs
  induction oldISs with
  | nil =>
    intro _ s tr added
    exact ⟨added, s, [], by simp [oldISLoop], by simp⟩
  | cons is rest ih =>
    intro hdisj s tr added
    obtain ⟨t, a, s', tr2, heq, hsc⟩ := transferLoop_noFaults is newIS
      (listMachines s is.selector) (listNodes s [(LabelKeyMachineUpdateSuccessful, "true")])
      s tr 0 added
    obtain ⟨sc2, s2, tr3, heq2, hcase⟩ := scaleMachineSet_noFaults s' is (is.replicas - t)
    obtain ⟨a2, s3, tr4, heq3, hsc3⟩ :=
      ih (fun i hi => hdisj i (List.mem_cons_of_mem _ hi)) s2 ((tr ++ tr2) ++ tr3) a
    refine ⟨a2, s3, (tr2 ++ tr3) ++ tr4, ?_, ?_⟩
    · simp only [oldISLoop, heq, heq2, Option.isSome_none, Bool.false_eq_true, if_false]
      rw [heq3]
      simp
    · intro e he
      rcases List.mem_append.mp he with he' | he'
      · rcases List.mem_append.mp he' with h | h
        · exact isScaleEvOf_eq_false_of_not_scale _ _ (hsc e h)
        · rcases hcase with h0 | h0 <;> subst h0
          · simp at h
          · simp only [List.mem_singleton] at h
            subst h
            simp only [isScaleEvOf]
            exact beq_eq_false_iff_ne.mpr (hdisj is (List.mem_cons_self _ _))
      · exact hsc3 e he'

/-- **C2 (amended).** In a fault-free run of
    `reconcileNewMachineSetInPlace`, the function returns without error
    and any scale event of the new machine set is the final element of
    the mutation trace, so every old-set scale-down precedes it.  (On
    the mid-batch error path this order is reversed: the new set is
    scaled up before the old set is scaled down, see the
    counterexample.) -/
theorem C2_amended_scale_order (s : ClusterState) (oldISs : List MachineSet)
    (newIS : MachineSet) (d : MachineDeployment)
    (hdisj : ∀ is ∈ oldISs, is.name ≠ newIS.name) :
    (reconcileNewMachineSetInPlace noFaults s oldISs newIS d).err = none ∧
    (∀ (i : Nat) (e : TraceEvent),
      (reconcileNewMachineSetInPlace noFaults s oldISs newIS d).trace.get? i = some e →
      isScaleEvOf newIS.name e = true →
      i + 1 = (reconcileNewMachineSetInPlace noFaults s oldISs newIS d).trace.length) := by
  unfold reconcileNewMachineSetInPlace
  split
  · refine ⟨rfl, ?_⟩
    intro i e hget _
    simp at hget
  · split
    · obtain ⟨sc, s', tr, heq, hcase⟩ := scaleMachineSet_noFaults s newIS d.replicas
      simp only [heq]
      refine ⟨trivial, ?_⟩
      intro i e hget hof
      rcases hcase with h0 | h0 <;> subst h0
      · simp at hget
      · rcases i with _ | i
        · rfl
        · simp at hget
    · obtain ⟨a, s', tr2, heq, hsc⟩ := oldISLoop_noFaults newIS oldISs hdisj s [] 0
      obtain ⟨sc2, s2, tr3, heq2, hcase⟩ := scaleMachineSet_noFaults s' newIS (newIS.replicas + a)
      simp only [heq, heq2]
      refine ⟨trivial, ?_⟩
      intro i e hget hof
      simp only [List.nil_append] at hget ⊢
      rcases hcase with h0 | h0 <;> subst h0
      · rw [List.append_nil] at hget
        have := List.get?_mem hget
        rw [hsc e this] at hof
        exact absurd hof (by simp)
      · rcases lt_or_ge i tr2.length with hi | hi
        · rw [List.get?_append hi] at hget
          have := List.get?_mem hget
          rw [hsc e this] at hof
          exact absurd hof (by simp)
        · have hlen : i < tr2.length + 1 := by
            have := (List.get?_eq_some.mp hget).1
            simpa using this
          have : i = tr2.length := by omega
          subst this
          simp

/-- Witness for the amended C2 at the concrete C2 cluster without
    faults. -/
theorem C2_amended_scale_order_witness :
    (∀ is ∈ [msOldA], is.name ≠ msNewB.name) ∧
    (reconcileNewMachineSetInPlace noFaults stC2 [msOldA] msNewB depA).err = none :=
  ⟨by decide, (C2_amended_scale_order stC2 [msOldA] msNewB depA (by decide)).1⟩

/-! ### State-projection and bookkeeping lemmas -/

theorem patchMachineOwnerAndLabels_machineSets (s : ClusterState) (n o : String) (L : Labels) :
    (patchMachineOwnerAndLabels s n o L).machineSets = s.machineSets := rfl

theorem updateNode_machineSets (s : ClusterState) (n : Node) :
    (updateNode s n).machineSets = s.machineSets := rfl

theorem updateNode_machines (s : ClusterState) (n : Node) :
    (updateNode s n).machines = s.machines := rfl

theorem setMSReplicas_machines (s : ClusterState) (n : String) (r : Int) :
    (setMSReplicas s n r).machines = s.machines := rfl

theorem countTransferEvents_append (a b : List TraceEvent) :
    countTransferEvents (a ++ b) = countTransferEvents a + countTransferEvents b := by
  simp [countTransferEvents, List.filter_append]

theorem countTransferEvents_nonneg (tr : List TraceEvent) : 0 ≤ countTransferEvents tr :=
  Int.natCast_nonneg _

theorem countTransferEvents_scale (n : String) (f t : Int) :
    countTransferEvents [TraceEvent.scaleEv n f t] = 0 := rfl

theorem countTransferEvents_uncordon (n : String) :
    countTransferEvents [TraceEvent.uncordonEv n] = 0 := rfl

theorem countTransferEvents_transfer (a b : String) :
    countTransferEvents [TraceEvent.transferEv a b] = 1 := rfl

theorem ownersTransferred_machines_eq (nm : String) (s s' : ClusterState) (tr : List TraceEvent)
    (h : ownersTransferred nm s tr) (he : s'.machines = s.machines) :
    ownersTransferred nm s' tr := by
  intro mn msn hmem
  obtain ⟨h1, h2⟩ := h mn msn hmem
  exact ⟨h1, fun m hm hn => h2 m (he ▸ hm) hn⟩

theorem ownersTransferred_patch (nm : String) (s : ClusterState) (tr : List TraceEvent)
    (x : String) (L : Labels) (h : ownersTransferred nm s tr) :
    ownersTransferred nm (patchMachineOwnerAndLabels s x nm L) tr := by
  intro mn msn hmem
  obtain ⟨h1, h2⟩ := h mn msn hmem
  refine ⟨h1, ?_⟩
  intro m hm hn
  simp only [patchMachineOwnerAndLabels, List.mem_map] at hm
  obtain ⟨m0, hm0, hrep⟩ := hm
  by_cases hx : m0.name == x
  · rw [if_pos hx] at hrep
    rw [← hrep]
  · rw [if_neg hx] at hrep
    subst hrep
    exact h2 m0 hm0 hn

theorem ownersTransferred_patch_self (nm : String) (s : ClusterState) (tr : List TraceEvent)
    (x : String) (L : Labels) (h : ownersTransferred nm s tr) :
    ownersTransferred nm (patchMachineOwnerAndLabels s x nm L)
      (tr ++ [TraceEvent.transferEv x nm]) := by
  intro mn msn hmem
  rcases List.mem_append.mp hmem with hmem | hmem
  · exact ownersTransferred_patch nm s tr x L h mn msn hmem
  · simp only [List.mem_singleton, TraceEvent.transferEv.injEq] at hmem
    obtain ⟨hx, hnm⟩ := hmem
    subst hx
    subst hnm
    refine ⟨rfl, ?_⟩
    intro m hm hn
    simp only [patchMachineOwnerAndLabels, List.mem_map] at hm
    obtain ⟨m0, hm0, hrep⟩ := hm
    by_cases hx0 : m0.name == mn
    · rw [if_pos hx0] at hrep
      rw [← hrep]
    · rw [if_neg hx0] at hrep
      subst hrep
      exact absurd hn (by simpa using hx0)

theorem ownersTransferred_append_nontransfer (nm : String) (s : ClusterState)
    (tr tr2 : List TraceEvent) (h : ownersTransferred nm s tr)
    (h2 : ∀ e ∈ tr2, isTransferEv e = false) :
    ownersTransferred nm s (tr ++ tr2) := by
  intro mn msn hmem
  rcases List.mem_append.mp hmem with hmem | hmem
  · exact h mn msn hmem
  · have := h2 _ hmem
    simp [isTransferEv] at this

theorem setMSReplicas_mem (s : ClusterState) (n : String) (r : Int) (ms' : MachineSet)
    (h : ms' ∈ (setMSReplicas s n r).machineSets) :
    ∃ ms0 ∈ s.machineSets, ms' = if ms0.name == n then { ms0 with replicas := r } else ms0 := by
  simp only [setMSReplicas, List.mem_map] at h
  obtain ⟨ms0, h0, h1⟩ := h
  exact ⟨ms0, h0, h1.symm⟩

/-- `scaleMachineSetAndRecordEvent` without a scale fault: a no-op when
    the snapshot already has the requested size, otherwise a successful
    store write recorded in the trace. -/
theorem scaleMachineSet_no_scale_fail (fm : FaultModel) (s : ClusterState) (is : MachineSet)
    (k : Int) (h : fm.scaleFails is.name = false) :
    scaleMachineSet fm s is k =
      if is.replicas == k then ((false, none), s, [])
      else ((true, none), setMSReplicas s is.name k, [.scaleEv is.name is.replicas k]) := by
  unfold scaleMachineSet
  split
  · rfl
  · rw [if_neg (by simp [h])]

/-- The double re-scale of the error path establishes the re-scaled
    replica counts on every stored machine set. -/
theorem rescaled_store_property (s : ClusterState) (is newIS : MachineSet) (k : Int)
    (hnames : is.name ≠ newIS.name) :
    ∀ ms' ∈ (setMSReplicas (setMSReplicas s newIS.name (newIS.replicas + k)) is.name
        (is.replicas - k)).machineSets,
      (ms'.name = newIS.name → ms'.replicas = newIS.replicas + k) ∧
      (ms'.name = is.name → ms'.replicas = is.replicas - k) := by
  intro ms' hmem
  obtain ⟨ms1, hmem1, hrep1⟩ := setMSReplicas_mem _ _ _ _ hmem
  obtain ⟨ms0, hmem0, hrep0⟩ := setMSReplicas_mem _ _ _ _ hmem1
  by_cases h1 : ms1.name == is.name
  · rw [if_pos h1] at hrep1
    subst hrep1
    refine ⟨fun hn => ?_, fun _ => rfl⟩
    exact absurd ((beq_iff_eq.mp h1).symm.trans hn) hnames
  · rw [if_neg h1] at hrep1
    subst hrep1
    by_cases h0 : ms0.name == newIS.name
    · rw [if_pos h0] at hrep0
      subst hrep0
      refine ⟨fun _ => rfl, fun hn => ?_⟩
      exact absurd ((beq_iff_eq.mp h0).symm.trans hn).symm hnames
    · rw [if_neg h0] at hrep0
      subst hrep0
      exact ⟨fun hn => absurd hn (by simpa using h0), fun hn => absurd hn (by simpa using h1)⟩

theorem storeConsistent_machineSets_eq (is newIS : MachineSet) (s s' : ClusterState)
    (h : storeConsistent is newIS s) (he : s'.machineSets = s.machineSets) :
    storeConsistent is newIS s' := fun ms' hm => h ms' (he ▸ hm)

theorem scaleMachineSet_eq_of_no_scale_fail (fm : FaultModel)
    (hscale : ∀ n, fm.scaleFails n = false) :
    ∀ (s : ClusterState) (is : MachineSet) (k : Int),
      scaleMachineSet fm s is k =
        if is.replicas == k then ((false, none), s, [])
        else ((true, none), setMSReplicas s is.name k, [.scaleEv is.name is.replicas k]) :=
  fun s is k => scaleMachineSet_no_scale_fail fm s is k (hscale is.name)

/-- Error path of the transfer loop: when the loop returns early with
    no scale or node-update fault injected, the error is a failed
    machine patch, the store records the re-scaled replica counts (new
    set up by the machines transferred so far, old set down by the same
    count), and the already transferred machines stay owned by the new
    machine set. -/
theorem transferLoop_early_C3 (fm : FaultModel) (is newIS : MachineSet) (machines : List Machine)
    (hscale : ∀ n, fm.scaleFails n = false)
    (hnode : ∀ n, fm.updateNodeFails n = false)
    (hnames : is.name ≠ newIS.name) :
    ∀ (nodes : List Node) (s : ClusterState) (tr : List TraceEvent),
      ownersTransferred newIS.name s tr →
      storeConsistent is newIS s →
      ∀ sc e s' tr',
        transferLoop fm is newIS machines nodes s tr (countTransferEvents tr) (countTransferEvents tr)
          = .early sc e s' tr' →
        e.isSome = true ∧
        (∀ ms' ∈ s'.machineSets,
          (ms'.name = newIS.name → ms'.replicas = newIS.replicas + countTransferEvents tr') ∧
          (ms'.name = is.name → ms'.replicas = is.replicas - countTransferEvents tr')) ∧
        ownersTransferred newIS.name s' tr' := by
  intro nodes
  induction nodes with
  | nil =>
    intro s tr _ _ sc e s' tr' heq
    simp [transferLoop] at heq
  | cons node rest ih =>
    intro s tr howners hcons sc e s' tr' heq
    simp only [transferLoop] at heq
    cases hm : getMachineFromNode machines node with
    | none =>
      simp only [hm] at heq
      exact ih s tr howners hcons sc e s' tr' heq
    | some machine =>
      simp only [hm] at heq
      by_cases hpf : fm.patchMachineFails machine.name = true
      · rw [if_pos hpf] at heq
        rw [scaleMachineSet_eq_of_no_scale_fail fm hscale s newIS
          (newIS.replicas + countTransferEvents tr)] at heq
        by_cases hk : countTransferEvents tr = 0
        · have hb1 : (newIS.replicas == newIS.replicas + countTransferEvents tr) = true := by
            rw [beq_iff_eq]; omega
          rw [hb1] at heq
          simp only [if_true] at heq
          rw [scaleMachineSet_eq_of_no_scale_fail fm hscale s is
            (is.replicas - countTransferEvents tr)] at heq
          have hb2 : (is.replicas == is.replicas - countTransferEvents tr) = true := by
            rw [beq_iff_eq]; omega
          rw [hb2] at heq
          simp only [if_true, Option.isSome_none, Bool.false_eq_true, if_false,
            List.append_nil] at heq
          cases heq
          refine ⟨rfl, ?_, howners⟩
          intro ms' hmem
          obtain ⟨hc1, hc2⟩ := hcons ms' hmem
          rw [hk]
          exact ⟨fun hn => by rw [hc1 hn]; omega, fun hn => by rw [hc2 hn]; omega⟩
        · have hb1 : (newIS.replicas == newIS.replicas + countTransferEvents tr) = false := by
            rw [beq_eq_false_iff_ne]; omega
          rw [hb1] at heq
          simp only [Bool.false_eq_true, if_false, Option.isSome_none] at heq
          rw [scaleMachineSet_eq_of_no_scale_fail fm hscale _ is
            (is.replicas - countTransferEvents tr)] at heq
          have hb2 : (is.replicas == is.replicas - countTransferEvents tr) = false := by
            rw [beq_eq_false_iff_ne]; omega
          rw [hb2] at heq
          simp only [Bool.false_eq_true, if_false, Option.isSome_none] at heq
          cases heq
          have hc' : countTransferEvents (tr ++ [TraceEvent.scaleEv newIS.name newIS.replicas
              (newIS.replicas + countTransferEvents tr)] ++ [TraceEvent.scaleEv is.name is.replicas
              (is.replicas - countTransferEvents tr)]) = countTransferEvents tr := by
            rw [countTransferEvents_append, countTransferEvents_append,
              countTransferEvents_scale, countTransferEvents_scale]
            omega
          refine ⟨rfl, ?_, ?_⟩
          · rw [hc']
            exact rescaled_store_property s is newIS (countTransferEvents tr) hnames
          · refine ownersTransferred_machines_eq _ _ _ _ ?_ rfl
            refine ownersTransferred_append_nontransfer _ _ _ _ ?_ ?_
            refine ownersTransferred_append_nontransfer _ _ _ _ ?_ ?_
            · exact ownersTransferred_machines_eq _ _ _ _ howners rfl
            · intro e' he'
              simp only [List.mem_singleton] at he'
              subst he'
              rfl
            · intro e' he'
              simp only [List.mem_singleton] at he'
              subst he'
              rfl
      · rw [if_neg hpf] at heq
        have hnf : fm.updateNodeFails node.name = false := hnode node.name
        rw [hnf] at heq
        simp only [Bool.false_eq_true, if_false] at heq
        have hcnt : countTransferEvents
            ((tr ++ [TraceEvent.transferEv machine.name newIS.name]) ++ [TraceEvent.uncordonEv node.name])
            = countTransferEvents tr + 1 := by
          rw [countTransferEvents_append, countTransferEvents_append,
            countTransferEvents_transfer, countTransferEvents_uncordon]
          omega
        rw [← hcnt] at heq
        have howners2 : ownersTransferred newIS.name
            (updateNode (patchMachineOwnerAndLabels s machine.name newIS.name
              (mergeStringMaps (mergeWithOverwriteAndFilter machine.labels is.selector newIS.selector)
                [(LabelKeyMachineUpdateSuccessful, "true")]))
              { node with unschedulable := false })
            ((tr ++ [TraceEvent.transferEv machine.name newIS.name]) ++ [TraceEvent.uncordonEv node.name]) := by
          refine ownersTransferred_machines_eq _ _ _ _ ?_ (updateNode_machines _ _)
          refine ownersTransferred_append_nontransfer _ _ _ _ ?_ ?_
          · exact ownersTransferred_patch_self _ _ _ _ _ howners
          · intro e' he'
            simp only [List.mem_singleton] at he'
            subst he'
            rfl
        have hcons2 : storeConsistent is newIS
            (updateNode (patchMachineOwnerAndLabels s machine.name newIS.name
              (mergeStringMaps (mergeWithOverwriteAndFilter machine.labels is.selector newIS.selector)
                [(LabelKeyMachineUpdateSuccessful, "true")]))
              { node with unschedulable := false }) :=
          storeConsistent_machineSets_eq _ _ _ _ hcons rfl
        exact ih _ _ howners2 hcons2 sc e s' tr' heq

/-- **C3.** In `reconcileNewMachineSetInPlace` with a single old
    machine set, when the owner-reference/label patch of some machine
    fails mid-batch (no scale or node-update fault), the run ends with
    an error and the store then holds the new machine set scaled up by
    the number of machines actually transferred in this run (the
    transfer events of the trace) and the old machine set scaled down
    by the same count; the transferred machines keep their new owner
    (no rollback), so the next reconcile can resume. -/
theorem C3_midbatch_patch_failure (fm : FaultModel) (s : ClusterState)
    (is newIS : MachineSet) (d : MachineDeployment)
    (hscale : ∀ n, fm.scaleFails n = false)
    (hnode : ∀ n, fm.updateNodeFails n = false)
    (hlt : newIS.replicas < d.replicas)
    (hnames : is.name ≠ newIS.name)
    (hcons : storeConsistent is newIS s)
    (herr : (reconcileNewMachineSetInPlace fm s [is] newIS d).err.isSome = true) :
    (∀ ms' ∈ (reconcileNewMachineSetInPlace fm s [is] newIS d).state.machineSets,
      (ms'.name = newIS.name →
        ms'.replicas = newIS.replicas
          + countTransferEvents (reconcileNewMachineSetInPlace fm s [is] newIS d).trace) ∧
      (ms'.name = is.name →
        ms'.replicas = is.replicas
          - countTransferEvents (reconcileNewMachineSetInPlace fm s [is] newIS d).trace)) ∧
    ownersTransferred newIS.name (reconcileNewMachineSetInPlace fm s [is] newIS d).state
      (reconcileNewMachineSetInPlace fm s [is] newIS d).trace := by
  have hne : (newIS.replicas == d.replicas) = false := by
    rw [beq_eq_false_iff_ne]; omega
  have hngt : ¬(newIS.replicas > d.replicas) := by omega
  cases htl : transferLoop fm is newIS (listMachines s is.selector)
      (listNodes s [(LabelKeyMachineUpdateSuccessful, "true")]) s [] 0 0 with
  | finished t a s1 tr1 =>
    exfalso
    simp only [reconcileNewMachineSetInPlace, hne, Bool.false_eq_true, if_false, hngt,
      oldISLoop, htl] at herr
    rw [scaleMachineSet_eq_of_no_scale_fail fm hscale s1 is (is.replicas - t)] at herr
    by_cases ht0 : (is.replicas == is.replicas - t) = true
    · rw [if_pos ht0] at herr
      simp only [Option.isSome_none, Bool.false_eq_true, if_false, oldISLoop] at herr
      rw [scaleMachineSet_eq_of_no_scale_fail fm hscale s1 newIS (newIS.replicas + a)] at herr
      by_cases ha0 : (newIS.replicas == newIS.replicas + a) = true
      · rw [if_pos ha0] at herr
        simp at herr
      · rw [if_neg ha0] at herr
        simp at herr
    · rw [if_neg ht0] at herr
      simp only [Option.isSome_none, Bool.false_eq_true, if_false, oldISLoop] at herr
      rw [scaleMachineSet_eq_of_no_scale_fail fm hscale _ newIS (newIS.replicas + a)] at herr
      by_cases ha0 : (newIS.replicas == newIS.replicas + a) = true
      · rw [if_pos ha0] at herr
        simp at herr
      · rw [if_neg ha0] at herr
        simp at herr
  | early sc0 e0 s1 tr1 =>
    have htl' := htl
    have h0 : (0 : Int) = countTransferEvents [] := rfl
    rw [h0] at htl'
    have howners0 : ownersTransferred newIS.name s [] :=
      fun mn msn hmem => absurd hmem (List.not_mem_nil _)
    obtain ⟨hes, hstore, howners⟩ := transferLoop_early_C3 fm is newIS
      (listMachines s is.selector) hscale hnode hnames
      (listNodes s [(LabelKeyMachineUpdateSuccessful, "true")]) s [] howners0 hcons
      sc0 e0 s1 tr1 htl'
    simp only [reconcileNewMachineSetInPlace, hne, Bool.false_eq_true, if_false, hngt,
      oldISLoop, htl]
    exact ⟨hstore, howners⟩

theorem noFaults_patch (n : String) : noFaults.patchMachineFails n = false := rfl

theorem noFaults_update (n : String) : noFaults.updateNodeFails n = false := rfl

/-! ### Label-deletion lemmas -/

theorem hasLabelKey_delLabel_self (l : Labels) (k : String) :
    hasLabelKey (delLabel l k) k = false := by
  rw [Bool.eq_false_iff]
  simp only [hasLabelKey, delLabel, List.any_eq_true, List.mem_filter, bne_iff_ne, ne_eq]
  rintro ⟨p, ⟨_, hne⟩, hp⟩
  exact hne (beq_iff_eq.mp hp)

theorem hasLabelKey_delLabel_mono (l : Labels) (k k' : String)
    (h : hasLabelKey l k = false) : hasLabelKey (delLabel l k') k = false := by
  rw [Bool.eq_false_iff] at h ⊢
  intro hcon
  apply h
  simp only [hasLabelKey, delLabel, List.any_eq_true, List.mem_filter] at hcon ⊢
  obtain ⟨p, ⟨hmem, _⟩, hp⟩ := hcon
  exact ⟨p, hmem, hp⟩

theorem hasLabelKey_foldl_delLabel_mono (ks : List String) :
    ∀ (l : Labels) (k : String), hasLabelKey l k = false →
      hasLabelKey (List.foldl delLabel l ks) k = false := by
  induction ks with
  | nil => intro l k h; simpa using h
  | cons k0 rest ih =>
    intro l k h
    exact ih _ _ (hasLabelKey_delLabel_mono l k k0 h)

theorem hasLabelKey_foldl_delLabel_mem (ks : List String) :
    ∀ (l : Labels) (k : String), k ∈ ks →
      hasLabelKey (List.foldl delLabel l ks) k = false := by
  induction ks with
  | nil => intro l k h; simp at h
  | cons k0 rest ih =>
    intro l k h
    rcases List.mem_cons.mp h with h | h
    · subst h
      exact hasLabelKey_foldl_delLabel_mono rest _ _ (hasLabelKey_delLabel_self l k)
    · exact ih _ _ h

/-! ### The label-removal loop of syncMachineSets -/

theorem patchMachineRemoveLabels_preserves_absence (s : ClusterState) (n : String)
    (ks : List String) (k name : String)
    (h : ∀ m' ∈ s.machines, m'.name = name → hasLabelKey m'.labels k = false) :
    ∀ m' ∈ (patchMachineRemoveLabels s n ks).machines, m'.name = name →
      hasLabelKey m'.labels k = false := by
  intro m' hm hn
  simp only [patchMachineRemoveLabels, List.mem_map] at hm
  obtain ⟨m0, hm0, hrep⟩ := hm
  by_cases hc : m0.name == n
  · rw [if_pos hc] at hrep
    subst hrep
    exact hasLabelKey_foldl_delLabel_mono ks _ _ (h m0 hm0 hn)
  · rw [if_neg hc] at hrep
    subst hrep
    exact h m0 hm0 hn

theorem patchMachineRemoveLabels_establishes (s : ClusterState) (n : String)
    (ks : List String) (k : String) (hk : k ∈ ks) :
    ∀ m' ∈ (patchMachineRemoveLabels s n ks).machines, m'.name = n →
      hasLabelKey m'.labels k = false := by
  intro m' hm hn
  simp only [patchMachineRemoveLabels, List.mem_map] at hm
  obtain ⟨m0, hm0, hrep⟩ := hm
  by_cases hc : m0.name == n
  · rw [if_pos hc] at hrep
    subst hrep
    exact hasLabelKey_foldl_delLabel_mem ks _ _ hk
  · rw [if_neg hc] at hrep
    subst hrep
    exact absurd hn (by simpa using hc)

theorem smsRemoveLabelsLoop_preserves_absence (ml : List Machine) :
    ∀ (s : ClusterState) (k name : String),
      (∀ m' ∈ s.machines, m'.name = name → hasLabelKey m'.labels k = false) →
      ∀ m' ∈ (smsRemoveLabelsLoop noFaults ml s).2.machines, m'.name = name →
        hasLabelKey m'.labels k = false := by
  induction ml with
  | nil =>
    intro s k name h
    simpa [smsRemoveLabelsLoop] using h
  | cons m rest ih =>
    intro s k name h
    simp only [smsRemoveLabelsLoop, noFaults_patch, Bool.false_eq_true, if_false]
    exact ih _ k name (patchMachineRemoveLabels_preserves_absence s m.name _ k name h)

theorem smsRemoveLabelsLoop_noFaults (ml : List Machine) :
    ∀ s : ClusterState, ∃ s2,
      smsRemoveLabelsLoop noFaults ml s = (none, s2) ∧
      s2.nodes = s.nodes ∧ s2.machineSets = s.machineSets ∧
      ∀ m ∈ ml, ∀ m' ∈ s2.machines, m'.name = m.name →
        hasLabelKey m'.labels LabelKeyMachineSelectedForUpdate = false ∧
        hasLabelKey m'.labels LabelKeyMachineDrainSuccessful = false ∧
        hasLabelKey m'.labels LabelKeyMachineUpdateSuccessful = false := by
  induction ml with
  | nil =>
    intro s
    refine ⟨s, rfl, rfl, rfl, ?_⟩
    intro m hm
    simp at hm
  | cons m rest ih =>
    intro s
    obtain ⟨s2, heq, hn, hms, habs⟩ := ih (patchMachineRemoveLabels s m.name
      [LabelKeyMachineSelectedForUpdate, LabelKeyMachineDrainSuccessful, LabelKeyMachineUpdateSuccessful])
    refine ⟨s2, ?_, hn, hms, ?_⟩
    · simp only [smsRemoveLabelsLoop, noFaults_patch, Bool.false_eq_true, if_false]
      exact heq
    · intro m0 hm0 m' hm' hname
      rcases List.mem_cons.mp hm0 with hh | hh
      · subst hh
        have hS2 : (smsRemoveLabelsLoop noFaults rest (patchMachineRemoveLabels s m0.name
            [LabelKeyMachineSelectedForUpdate, LabelKeyMachineDrainSuccessful,
              LabelKeyMachineUpdateSuccessful])).2 = s2 := by rw [heq]
        refine ⟨?_, ?_, ?_⟩ <;>
        · refine smsRemoveLabelsLoop_preserves_absence rest _ _ _ ?_ m' (hS2 ▸ hm') hname
          exact patchMachineRemoveLabels_establishes s m0.name _ _ (by simp)
      · exact habs m0 hh m' hm' hname

/-! ### The uncordon loop of syncMachineSets -/

theorem getNode_congr_nodes (s t : ClusterState) (x : String) (h : s.nodes = t.nodes) :
    getNode s x = getNode t x := by
  simp [getNode, h]

theorem getNode_none_updateNode (s : ClusterState) (n : Node) (x : String) :
    (getNode (updateNode s n) x = none) ↔ (getNode s x = none) := by
  simp only [getNode, updateNode, List.find?_eq_none, List.mem_map,
    forall_exists_index, and_imp]
  constructor
  · intro h z hz
    have := h _ z hz rfl
    by_cases hc : z.name == n.name
    · rw [if_pos hc] at this
      rw [beq_iff_eq.mp hc]
      exact this
    · rwa [if_neg hc] at this
  · intro h y z hz hrep
    subst hrep
    by_cases hc : z.name == n.name
    · rw [if_pos hc, ← beq_iff_eq.mp hc]
      exact h z hz
    · rw [if_neg hc]
      exact h z hz

theorem smsUncordonLoop_error (ml : List Machine) :
    ∀ s : ClusterState,
      (∃ m ∈ ml, hasLabelKey m.labels NodeLabelKey = false ∨
        getNode s (getLabel m.labels NodeLabelKey) = none) →
      (smsUncordonLoop noFaults ml s).1.isSome = true ∧
      (smsUncordonLoop noFaults ml s).2.machines = s.machines := by
  induction ml with
  | nil =>
    intro s h
    simp at h
  | cons m rest ih =>
    intro s hbad
    simp only [smsUncordonLoop]
    by_cases h1 : hasLabelKey m.labels NodeLabelKey = true
    · rw [if_neg (by simp [h1])]
      cases hn : getNode s (getLabel m.labels NodeLabelKey) with
      | none => exact ⟨rfl, rfl⟩
      | some node =>
        simp only [noFaults_update, Bool.false_eq_true, if_false]
        have hbad' : ∃ m2 ∈ rest, hasLabelKey m2.labels NodeLabelKey = false ∨
            getNode (updateNode s
              { node with
                labels := delLabel (delLabel node.labels LabelKeyMachineUpdateSuccessful)
                  LabelKeyMachineReadyForUpdate
                unschedulable := false }) (getLabel m2.labels NodeLabelKey) = none := by
          obtain ⟨m2, hm2, hb⟩ := hbad
          rcases List.mem_cons.mp hm2 with hh | hh
          · subst hh
            rcases hb with hb | hb
            · rw [h1] at hb
              exact absurd hb (by simp)
            · rw [hn] at hb
              exact absurd hb (by simp)
          · refine ⟨m2, hh, ?_⟩
            rcases hb with hb | hb
            · exact Or.inl hb
            · exact Or.inr ((getNode_none_updateNode _ _ _).mpr hb)
        have := ih _ hbad'
        exact ⟨this.1, this.2.trans (updateNode_machines _ _)⟩
    · rw [if_pos (by simpa using h1)]
      exact ⟨rfl, rfl⟩

theorem nodeUncordonedClean_written (node : Node) :
    nodeUncordonedClean
      { node with
        labels := delLabel (delLabel node.labels LabelKeyMachineUpdateSuccessful)
          LabelKeyMachineReadyForUpdate
        unschedulable := false } := by
  refine ⟨rfl, ?_, ?_⟩
  · exact hasLabelKey_delLabel_mono _ _ _ (hasLabelKey_delLabel_self _ _)
  · exact hasLabelKey_delLabel_self _ _

theorem smsUncordonLoop_preserves_clean (ml : List Machine) :
    ∀ (s : ClusterState) (x : String),
      (∀ n' ∈ s.nodes, n'.name = x → nodeUncordonedClean n') →
      ∀ e s', smsUncordonLoop noFaults ml s = (e, s') →
        ∀ n' ∈ s'.nodes, n'.name = x → nodeUncordonedClean n' := by
  induction ml with
  | nil =>
    intro s x h e s' heq
    cases heq
    exact h
  | cons m rest ih =>
    intro s x h e s' heq
    simp only [smsUncordonLoop] at heq
    by_cases h1 : hasLabelKey m.labels NodeLabelKey = true
    · rw [if_neg (by simp [h1])] at heq
      cases hn : getNode s (getLabel m.labels NodeLabelKey) with
      | none =>
        rw [hn] at heq
        cases heq
        exact h
      | some node =>
        rw [hn] at heq
        simp only [noFaults_update, Bool.false_eq_true, if_false] at heq
        refine ih _ x ?_ e s' heq
        intro n' hn' hx
        simp only [updateNode, List.mem_map] at hn'
        obtain ⟨n0, hn0, hrep⟩ := hn'
        by_cases hc : n0.name == node.name
        · rw [if_pos hc] at hrep
          subst hrep
          exact nodeUncordonedClean_written node
        · rw [if_neg hc] at hrep
          subst hrep
          exact h n0 hn0 hx
    · rw [if_pos (by simpa using h1)] at heq
      cases heq
      exact h

theorem smsUncordonLoop_noFaults_success (ml : List Machine) :
    ∀ (s s' : ClusterState), smsUncordonLoop noFaults ml s = (none, s') →
      s'.machines = s.machines ∧ s'.machineSets = s.machineSets ∧
      ∀ m ∈ ml, ∀ n' ∈ s'.nodes, n'.name = getLabel m.labels NodeLabelKey →
        nodeUncordonedClean n' := by
  induction ml with
  | nil =>
    intro s s' heq
    cases heq
    refine ⟨rfl, rfl, ?_⟩
    intro m hm
    simp at hm
  | cons m rest ih =>
    intro s s' heq
    simp only [smsUncordonLoop] at heq
    by_cases h1 : hasLabelKey m.labels NodeLabelKey = true
    · rw [if_neg (by simp [h1])] at heq
      cases hn : getNode s (getLabel m.labels NodeLabelKey) with
      | none =>
        rw [hn] at heq
        cases heq
      | some node =>
        rw [hn] at heq
        simp only [noFaults_update, Bool.false_eq_true, if_false] at heq
        obtain ⟨hmach, hms, hrest⟩ := ih _ _ heq
        have hname : node.name = getLabel m.labels NodeLabelKey := by
          have h' := hn
          simp only [getNode] at h'
          have h2 := @List.find?_some _ (fun n => n.name == getLabel m.labels NodeLabelKey)
            node s.nodes h'
          exact beq_iff_eq.mp h2
        refine ⟨hmach.trans (updateNode_machines _ _), hms.trans (updateNode_machineSets _ _), ?_⟩
        intro m0 hm0 n' hn' hx
        rcases List.mem_cons.mp hm0 with hh | hh
        · subst hh
          refine smsUncordonLoop_preserves_clean rest _ (getLabel m0.labels NodeLabelKey)
            ?_ none s' heq n' hn' hx
          intro n1 hn1 hx1
          simp only [updateNode, List.mem_map] at hn1
          obtain ⟨n0, hn0, hrep⟩ := hn1
          by_cases hc : n0.name == node.name
          · rw [if_pos hc] at hrep
            subst hrep
            exact nodeUncordonedClean_written node
          · rw [if_neg hc] at hrep
            subst hrep
            exact absurd (hx1.trans hname.symm) (by simpa using hc)
        · exact hrest m0 hh n' hn' hx
    · rw [if_pos (by simpa using h1)] at heq
      cases heq

/-! ### The scale steps of syncMachineSets -/

theorem smsScaleStep_noFaults (s : ClusterState) (newIS : MachineSet)
    (machines withLbl : List Machine) :
    ∃ s1, smsScaleStep noFaults s newIS machines withLbl = (none, s1) ∧
      s1.machines = s.machines ∧ s1.nodes = s.nodes := by
  simp only [smsScaleStep]
  split
  · rw [scaleMachineSet_eq_of_no_scale_fail noFaults (fun _ => rfl) s newIS
      (newIS.replicas + min (withLbl.length : Int) ((machines.length : Int) - newIS.replicas))]
    split
    · exact ⟨s, rfl, rfl, rfl⟩
    · exact ⟨_, rfl, rfl, rfl⟩
  · exact ⟨s, rfl, rfl, rfl⟩

theorem smsScaleDownOldLoop_noFaults (mls : List MachineSet) :
    ∀ s : ClusterState, ∃ s4,
      smsScaleDownOldLoop noFaults mls s = (none, s4) ∧
      s4.machines = s.machines ∧ s4.nodes = s.nodes := by
  induction mls with
  | nil => intro s; exact ⟨s, rfl, rfl, rfl⟩
  | cons is rest ih =>
    intro s
    simp only [smsScaleDownOldLoop]
    split
    · rw [scaleMachineSet_eq_of_no_scale_fail noFaults (fun _ => rfl) s is _]
      split
      · simp only [Option.isSome_none, Bool.false_eq_true, if_false]
        exact ih s
      · simp only [Option.isSome_none, Bool.false_eq_true, if_false]
        obtain ⟨s4, heq, hm, hn⟩ := ih (setMSReplicas s is.name (listMachines s is.selector).length)
        exact ⟨s4, heq, hm, hn⟩
    · exact ih s

/-- Witness for C3 at the concrete C2/C3 cluster: the patch of machine
    m1 fails after m0 was transferred. -/
theorem C3_midbatch_patch_failure_witness :
    (reconcileNewMachineSetInPlace fmC2 stC2 [msOldA] msNewB depA).err.isSome = true ∧
    ownersTransferred msNewB.name
      (reconcileNewMachineSetInPlace fmC2 stC2 [msOldA] msNewB depA).state
      (reconcileNewMachineSetInPlace fmC2 stC2 [msOldA] msNewB depA).trace :=
  ⟨by decide,
    (C3_midbatch_patch_failure fmC2 stC2 msOldA msNewB depA (fun _ => rfl) (fun _ => rfl)
      (by decide) (by decide) (by unfold storeConsistent; decide) (by decide)).2⟩

/-- **C9 counterexample.** `syncMachineSets` does not return "without
    uncordoning any node" when a machine fails the node-name lookup:
    with machines sa (backed by cordoned node na) and sb (no node-name
    label) in that lister order, the run returns an error but node na
    has already been uncordoned. -/
theorem C9_counterexample_uncordons_before_error :
    (syncMachineSets noFaults stC9 [] msNewB depA).1.isSome = true ∧
    getNode stC9 "na" = some ⟨"na", [], true⟩ ∧
    getNode (syncMachineSets noFaults stC9 [] msNewB depA).2 "na" = some ⟨"na", [], false⟩ :=
  ⟨rfl, rfl, rfl⟩

/-- **C9 (amended).** `syncMachineSets` returns an error whenever some
    machine matching the new machine set's selector has no node-name
    label or its named node cannot be fetched; nodes of machines
    earlier in the iteration order may already have been uncordoned
    (see the counterexample), and the per-machine label-removal patches
    already applied stand in the error state (no rollback). -/
theorem C9_amended_error_after_partial_uncordon (s : ClusterState) (oldISs : List MachineSet)
    (newIS : MachineSet) (d : MachineDeployment)
    (hbad : ∃ m ∈ listMachines s newIS.selector,
      hasLabelKey m.labels NodeLabelKey = false ∨
      getNode s (getLabel m.labels NodeLabelKey) = none) :
    (syncMachineSets noFaults s oldISs newIS d).1.isSome = true ∧
    (∀ m ∈ filterMachinesWithUpdateSuccessfulLabel (listMachines s newIS.selector),
      ∀ m' ∈ (syncMachineSets noFaults s oldISs newIS d).2.machines, m'.name = m.name →
        hasLabelKey m'.labels LabelKeyMachineSelectedForUpdate = false ∧
        hasLabelKey m'.labels LabelKeyMachineDrainSuccessful = false ∧
        hasLabelKey m'.labels LabelKeyMachineUpdateSuccessful = false) := by
  obtain ⟨s1, hstep, hs1m, hs1n⟩ := smsScaleStep_noFaults s newIS
    (listMachines s newIS.selector)
    (filterMachinesWithUpdateSuccessfulLabel (listMachines s newIS.selector))
  obtain ⟨s2, hrem, hs2n, hs2ms, habs⟩ := smsRemoveLabelsLoop_noFaults
    (filterMachinesWithUpdateSuccessfulLabel (listMachines s newIS.selector)) s1
  have hbad2 : ∃ m ∈ listMachines s newIS.selector,
      hasLabelKey m.labels NodeLabelKey = false ∨
      getNode s2 (getLabel m.labels NodeLabelKey) = none := by
    obtain ⟨m, hm, hb⟩ := hbad
    refine ⟨m, hm, ?_⟩
    rcases hb with hb | hb
    · exact Or.inl hb
    · rw [getNode_congr_nodes s2 s _ (hs2n.trans hs1n)]
      exact Or.inr hb
  have huerr := smsUncordonLoop_error (listMachines s newIS.selector) s2 hbad2
  rcases hu : smsUncordonLoop noFaults (listMachines s newIS.selector) s2 with ⟨e3, s3⟩
  rw [hu] at huerr
  cases e3 with
  | none => simp at huerr
  | some e =>
    constructor
    · simp only [syncMachineSets, hstep, hrem, hu]
      rfl
    · intro m hm m' hm' hname
      have hst : (syncMachineSets noFaults s oldISs newIS d).2 = s3 := by
        simp only [syncMachineSets, hstep, hrem, hu]
      rw [hst] at hm'
      have hm'' : m' ∈ s2.machines := by
        have h2 : s3.machines = s2.machines := huerr.2
        rw [← h2]
        exact hm'
      exact habs m hm m' hm'' hname

/-- Witness for the amended C9 at the concrete C9 cluster. -/
theorem C9_amended_witness :
    (∃ m ∈ listMachines stC9 msNewB.selector,
      hasLabelKey m.labels NodeLabelKey = false ∨
      getNode stC9 (getLabel m.labels NodeLabelKey) = none) ∧
    (syncMachineSets noFaults stC9 [] msNewB depA).1.isSome = true :=
  ⟨⟨mSyncB, by decide, Or.inl (by decide)⟩,
    (C9_amended_error_after_partial_uncordon stC9 [] msNewB depA
      ⟨mSyncB, by decide, Or.inl (by decide)⟩).1⟩

/-- **C10 counterexample.** After a successful `syncMachineSets` run,
    a machine matching the new selector that carries
    selected-for-update but not update-successful keeps its label, and
    its node keeps the candidate/selected update labels: only machines
    with the update-successful label are patched, and only the
    update-successful / ready-for-update keys are deleted from nodes. -/
theorem C10_counterexample_labels_survive :
    (syncMachineSets noFaults stC10 [] msNewB depA).1 = none ∧
    getMachine (syncMachineSets noFaults stC10 [] msNewB depA).2 "msel" = some mSel ∧
    getNode (syncMachineSets noFaults stC10 [] msNewB depA).2 "nsel"
      = some ⟨"nsel", [(LabelKeyMachineCandidateForUpdate, "true"),
          (LabelKeyMachineSelectedForUpdate, "true")], false⟩ :=
  ⟨rfl, rfl, rfl⟩

/-- **C10 (amended).** After a successful `syncMachineSets` run, every
    machine matching the new machine set's selector that carries the
    update-successful label has the selected-for-update,
    drain-successful and update-successful labels removed, and every
    node backing a selector-matching machine is uncordoned and loses
    the update-successful and ready-for-update label keys (machines
    without the update-successful label and other node labels are left
    untouched, see the counterexample). -/
theorem C10_amended_sync_cleanup (s : ClusterState) (oldISs : List MachineSet)
    (newIS : MachineSet) (d : MachineDeployment)
    (hsucc : (syncMachineSets noFaults s oldISs newIS d).1 = none) :
    (∀ m ∈ filterMachinesWithUpdateSuccessfulLabel (listMachines s newIS.selector),
      ∀ m' ∈ (syncMachineSets noFaults s oldISs newIS d).2.machines, m'.name = m.name →
        hasLabelKey m'.labels LabelKeyMachineSelectedForUpdate = false ∧
        hasLabelKey m'.labels LabelKeyMachineDrainSuccessful = false ∧
        hasLabelKey m'.labels LabelKeyMachineUpdateSuccessful = false) ∧
    (∀ m ∈ listMachines s newIS.selector,
      ∀ n' ∈ (syncMachineSets noFaults s oldISs newIS d).2.nodes,
        n'.name = getLabel m.labels NodeLabelKey → nodeUncordonedClean n') := by
  obtain ⟨s1, hstep, hs1m, hs1n⟩ := smsScaleStep_noFaults s newIS
    (listMachines s newIS.selector)
    (filterMachinesWithUpdateSuccessfulLabel (listMachines s newIS.selector))
  obtain ⟨s2, hrem, hs2n, hs2ms, habs⟩ := smsRemoveLabelsLoop_noFaults
    (filterMachinesWithUpdateSuccessfulLabel (listMachines s newIS.selector)) s1
  rcases hu : smsUncordonLoop noFaults (listMachines s newIS.selector) s2 with ⟨e3, s3⟩
  cases e3 with
  | some e =>
    have : (syncMachineSets noFaults s oldISs newIS d).1 = some e := by
      simp only [syncMachineSets, hstep, hrem, hu]
    rw [this] at hsucc
    exact absurd hsucc (by simp)
  | none =>
    obtain ⟨hm3, hms3, hclean⟩ := smsUncordonLoop_noFaults_success _ _ _ hu
    obtain ⟨s4, hsd, hs4m, hs4n⟩ := smsScaleDownOldLoop_noFaults oldISs s3
    have hfinal : (syncMachineSets noFaults s oldISs newIS d) = (none, s4) := by
      simp only [syncMachineSets, hstep, hrem, hu, hsd]
    constructor
    · intro m hm m' hm' hname
      rw [hfinal] at hm'
      have hm'' : m' ∈ s2.machines := by
        rw [← hm3, ← hs4m]
        exact hm'
      exact habs m hm m' hm'' hname
    · intro m hm n' hn' hx
      rw [hfinal] at hn'
      have hn'' : n' ∈ s3.nodes := by
        rw [← hs4n]
        exact hn'
      exact hclean m hm n' hn'' hx

/-- Witness for the amended C10: an update-successful machine has its
    three labels removed by a successful run. -/
theorem C10_amended_witness :
    (syncMachineSets noFaults stC10b [] msNewB depA).1 = none ∧
    (∀ m' ∈ (syncMachineSets noFaults stC10b [] msNewB depA).2.machines, m'.name = mUpd.name →
      hasLabelKey m'.labels LabelKeyMachineSelectedForUpdate = false ∧
      hasLabelKey m'.labels LabelKeyMachineDrainSuccessful = false ∧
      hasLabelKey m'.labels LabelKeyMachineUpdateSuccessful = false) :=
  ⟨by decide,
    (C10_amended_sync_cleanup stC10b [] msNewB depA (by decide)).1 mUpd (by decide)⟩


/-! ### Association-list lemmas for setLabel -/

theorem getLabel_cons_hit (p : String × String) (rest : Labels) (k : String)
    (h : (p.1 == k) = true) : getLabel (p :: rest) k = p.2 := by
  simp [getLabel, List.find?_cons_of_pos, h]

theorem getLabel_cons_miss (p : String × String) (rest : Labels) (k : String)
    (h : (p.1 == k) = false) : getLabel (p :: rest) k = getLabel rest k := by
  simp [getLabel, List.find?_cons_of_neg, h]

theorem getLabel_append_single_self (l : Labels) (k v : String)
    (h : hasLabelKey l k = false) : getLabel (l ++ [(k, v)]) k = v := by
  induction l with
  | nil => simp [getLabel]
  | cons p rest ih =>
    simp only [hasLabelKey, List.any_cons, Bool.or_eq_false_iff] at h
    rw [List.cons_append, getLabel_cons_miss p _ k h.1]
    exact ih (by simp [hasLabelKey, h.2])

theorem getLabel_append_single_other (l : Labels) (k v k' : String) (h : k' ≠ k) :
    getLabel (l ++ [(k, v)]) k' = getLabel l k' := by
  induction l with
  | nil =>
    rw [List.nil_append, getLabel_cons_miss _ _ _ (beq_eq_false_iff_ne.mpr (Ne.symm h))]
  | cons p rest ih =>
    by_cases hp : (p.1 == k') = true
    · rw [List.cons_append, getLabel_cons_hit p _ k' hp, getLabel_cons_hit p rest k' hp]
    · rw [List.cons_append, getLabel_cons_miss p _ k' (by simpa using hp),
        getLabel_cons_miss p rest k' (by simpa using hp)]
      exact ih

theorem getLabel_map_set_self (l : Labels) (k v : String) (h : hasLabelKey l k = true) :
    getLabel (l.map (fun p => if p.1 == k then (k, v) else p)) k = v := by
  induction l with
  | nil => simp [hasLabelKey] at h
  | cons p rest ih =>
    by_cases hp : (p.1 == k) = true
    · rw [List.map_cons, if_pos hp]
      exact getLabel_cons_hit (k, v) _ k (by simp)
    · rw [List.map_cons, if_neg hp, getLabel_cons_miss p _ k (by simpa using hp)]
      simp only [hasLabelKey, List.any_cons, Bool.or_eq_true] at h
      rcases h with h | h
      · exact absurd h hp
      · exact ih h

theorem getLabel_map_set_other (l : Labels) (k v k' : String) (h : k' ≠ k) :
    getLabel (l.map (fun p => if p.1 == k then (k, v) else p)) k' = getLabel l k' := by
  induction l with
  | nil => rfl
  | cons p rest ih =>
    by_cases hp : (p.1 == k) = true
    · rw [List.map_cons, if_pos hp,
        getLabel_cons_miss (k, v) _ k' (beq_eq_false_iff_ne.mpr (Ne.symm h)),
        getLabel_cons_miss p rest k' ?_]
      · exact ih
      · rw [beq_iff_eq.mp hp]
        exact beq_eq_false_iff_ne.mpr (Ne.symm h)
    · rw [List.map_cons, if_neg hp]
      by_cases hp' : (p.1 == k') = true
      · rw [getLabel_cons_hit p _ k' hp', getLabel_cons_hit p rest k' hp']
      · rw [getLabel_cons_miss p _ k' (by simpa using hp'),
          getLabel_cons_miss p rest k' (by simpa using hp')]
        exact ih

theorem getLabel_setLabel_self (l : Labels) (k v : String) :
    getLabel (setLabel l k v) k = v := by
  unfold setLabel
  split
  · exact getLabel_map_set_self l k v (by assumption)
  · exact getLabel_append_single_self l k v (by rename_i h; simpa using h)

theorem getLabel_setLabel_other (l : Labels) (k v k' : String) (h : k' ≠ k) :
    getLabel (setLabel l k v) k' = getLabel l k' := by
  unfold setLabel
  split
  · exact getLabel_map_set_other l k v k' h
  · exact getLabel_append_single_other l k v k' h

theorem mergeSingle_eq_setLabel (l : Labels) (k v : String) :
    mergeStringMaps l [(k, v)] = setLabel l k v := rfl

theorem matchesSelector_congr (sel : Labels) (l0 l1 : Labels)
    (h : ∀ p ∈ sel, getLabel l1 p.1 = getLabel l0 p.1) :
    matchesSelector sel l1 = matchesSelector sel l0 := by
  induction sel with
  | nil => rfl
  | cons p rest ih =>
    simp only [matchesSelector, List.all_cons]
    rw [h p (List.mem_cons_self _ _)]
    have := ih (fun q hq => h q (List.mem_cons_of_mem _ hq))
    simp only [matchesSelector] at this
    rw [this]

/-! ### Evolution bookkeeping for candidate labeling -/

theorem forall₂_mem_left {α β : Type} {R : α → β → Prop} {l0 : List α} {l1 : List β}
    (h : List.Forall₂ R l0 l1) {x : α} (hx : x ∈ l0) : ∃ y ∈ l1, R x y := by
  induction h with
  | nil => simp at hx
  | cons hr _ ih =>
    rcases List.mem_cons.mp hx with hh | hh
    · subst hh
      exact ⟨_, List.mem_cons_self _ _, hr⟩
    · obtain ⟨y, hy, hR⟩ := ih hh
      exact ⟨y, List.mem_cons_of_mem _ hy, hR⟩

theorem machinesEvolved_refl (l : List Machine) : machinesEvolved l l :=
  List.forall₂_same.mpr (fun _ _ => ⟨rfl, fun _ _ => rfl⟩)

theorem nodesEvolved_refl (l : List Node) : nodesEvolved l l :=
  List.forall₂_same.mpr (fun _ _ => ⟨rfl, rfl, fun _ _ => rfl, fun h => h⟩)

theorem machinesEvolved_trans {l0 l1 l2 : List Machine}
    (h1 : machinesEvolved l0 l1) (h2 : machinesEvolved l1 l2) : machinesEvolved l0 l2 := by
  induction h1 generalizing l2 with
  | nil =>
    cases h2
    exact List.Forall₂.nil
  | cons hr _ ih =>
    cases h2 with
    | cons hr2 ht2 =>
      refine List.Forall₂.cons ⟨hr2.1.trans hr.1, ?_⟩ (ih ht2)
      intro k hk
      exact (hr2.2 k hk).trans (hr.2 k hk)

theorem nodesEvolved_trans {l0 l1 l2 : List Node}
    (h1 : nodesEvolved l0 l1) (h2 : nodesEvolved l1 l2) : nodesEvolved l0 l2 := by
  induction h1 generalizing l2 with
  | nil =>
    cases h2
    exact List.Forall₂.nil
  | cons hr _ ih =>
    cases h2 with
    | cons hr2 ht2 =>
      refine List.Forall₂.cons
        ⟨hr2.1.trans hr.1, hr2.2.1.trans hr.2.1, ?_, fun h => hr2.2.2.2 (hr.2.2.2 h)⟩ (ih ht2)
      intro k hk
      exact (hr2.2.2.1 k hk).trans (hr.2.2.1 k hk)

theorem machinesEvolved_names {l0 l1 : List Machine} (h : machinesEvolved l0 l1) :
    l1.map Machine.name = l0.map Machine.name := by
  induction h with
  | nil => rfl
  | cons hr _ ih =>
    simp only [List.map_cons, ih, hr.1]

theorem nodesEvolved_names {l0 l1 : List Node} (h : nodesEvolved l0 l1) :
    l1.map Node.name = l0.map Node.name := by
  induction h with
  | nil => rfl
  | cons hr _ ih =>
    simp only [List.map_cons, ih, hr.1]

/-! ### Candidate-labeling persistence -/

theorem machineCandTrue_patch (t : ClusterState) (name x : String) (L : Labels)
    (hL : getLabel L LabelKeyMachineCandidateForUpdate = "true")
    (h : machineCandTrue t name) :
    machineCandTrue (patchMachineLabels t x L) name := by
  intro m' hm hn
  simp only [patchMachineLabels, List.mem_map] at hm
  obtain ⟨m0, hm0, hrep⟩ := hm
  by_cases hc : m0.name == x
  · rw [if_pos hc] at hrep
    subst hrep
    exact hL
  · rw [if_neg hc] at hrep
    subst hrep
    exact h m0 hm0 hn

theorem machineCandTrue_machines_eq (t t' : ClusterState) (name : String)
    (h : machineCandTrue t name) (he : t'.machines = t.machines) :
    machineCandTrue t' name := by
  intro m' hm hn
  rw [he] at hm
  exact h m' hm hn

theorem nodeCandTrue_nodes_eq (t t' : ClusterState) (name : String)
    (h : nodeCandTrue t name) (he : t'.nodes = t.nodes) :
    nodeCandTrue t' name := by
  intro n' hn' hx
  rw [he] at hn'
  exact h n' hn' hx

theorem nodeCandTrue_update (t : ClusterState) (name : String) (n : Node)
    (hn : getLabel n.labels LabelKeyMachineCandidateForUpdate = "true")
    (h : nodeCandTrue t name) : nodeCandTrue (updateNode t n) name := by
  intro n' hn' hx
  simp only [updateNode, List.mem_map] at hn'
  obtain ⟨n0, hn0, hrep⟩ := hn'
  by_cases hc : n0.name == n.name
  · rw [if_pos hc] at hrep
    subst hrep
    exact hn
  · rw [if_neg hc] at hrep
    subst hrep
    exact h n0 hn0 hx

/-- The label written by the candidate patch always carries
    candidate-for-update=true. -/
theorem candPatch_label_true (l : Labels) :
    getLabel (mergeStringMaps l [(LabelKeyMachineCandidateForUpdate, "true")])
      LabelKeyMachineCandidateForUpdate = "true" := by
  rw [mergeSingle_eq_setLabel]
  exact getLabel_setLabel_self l _ _

theorem lnMachineLoop_preserves_machineCandTrue (ML : List Machine) :
    ∀ (t : ClusterState) (name : String), machineCandTrue t name →
      ∀ e t', lnMachineLoop noFaults ML t = (e, t') → machineCandTrue t' name := by
  induction ML with
  | nil =>
    intro t name h e t' heq
    cases heq
    exact h
  | cons m rest ih =>
    intro t name h e t' heq
    simp only [lnMachineLoop] at heq
    by_cases h1 : (getLabel m.labels NodeLabelKey != "") = true
    · rw [if_pos h1] at heq
      simp only [noFaults_patch, Bool.false_eq_true, if_false] at heq
      have hpatch : machineCandTrue (patchMachineLabels t m.name
          (mergeStringMaps m.labels [(LabelKeyMachineCandidateForUpdate, "true")])) name :=
        machineCandTrue_patch t name m.name _ (candPatch_label_true m.labels) h
      cases hn : getNode (patchMachineLabels t m.name
          (mergeStringMaps m.labels [(LabelKeyMachineCandidateForUpdate, "true")]))
          (getLabel m.labels NodeLabelKey) with
      | none =>
        simp only [hn] at heq
        exact ih _ name hpatch e t' heq
      | some node =>
        simp only [hn] at heq
        by_cases h2 : (getLabel node.labels LabelKeyMachineCandidateForUpdate == "true") = true
        · rw [if_pos h2] at heq
          exact ih _ name hpatch e t' heq
        · rw [if_neg h2] at heq
          simp only [noFaults_update, Bool.false_eq_true, if_false] at heq
          refine ih _ name ?_ e t' heq
          exact machineCandTrue_machines_eq _ _ name hpatch (updateNode_machines _ _)
    · rw [if_neg h1] at heq
      exact ih t name h e t' heq

theorem lnMachineLoop_preserves_nodeCandTrue (ML : List Machine) :
    ∀ (t : ClusterState) (name : String), nodeCandTrue t name →
      ∀ e t', lnMachineLoop noFaults ML t = (e, t') → nodeCandTrue t' name := by
  induction ML with
  | nil =>
    intro t name h e t' heq
    cases heq
    exact h
  | cons m rest ih =>
    intro t name h e t' heq
    simp only [lnMachineLoop] at heq
    by_cases h1 : (getLabel m.labels NodeLabelKey != "") = true
    · rw [if_pos h1] at heq
      simp only [noFaults_patch, Bool.false_eq_true, if_false] at heq
      have hpatch : nodeCandTrue (patchMachineLabels t m.name
          (mergeStringMaps m.labels [(LabelKeyMachineCandidateForUpdate, "true")])) name :=
        nodeCandTrue_nodes_eq _ _ name h rfl
      cases hn : getNode (patchMachineLabels t m.name
          (mergeStringMaps m.labels [(LabelKeyMachineCandidateForUpdate, "true")]))
          (getLabel m.labels NodeLabelKey) with
      | none =>
        simp only [hn] at heq
        exact ih _ name hpatch e t' heq
      | some node =>
        simp only [hn] at heq
        by_cases h2 : (getLabel node.labels LabelKeyMachineCandidateForUpdate == "true") = true
        · rw [if_pos h2] at heq
          exact ih _ name hpatch e t' heq
        · rw [if_neg h2] at heq
          simp only [noFaults_update, Bool.false_eq_true, if_false] at heq
          refine ih _ name ?_ e t' heq
          refine nodeCandTrue_update _ name _ ?_ hpatch
          exact getLabel_setLabel_self _ _ _
    · rw [if_neg h1] at heq
      exact ih t name h e t' heq

theorem lnMSLoop_preserves_machineCandTrue (msl : List MachineSet) :
    ∀ (t : ClusterState) (name : String), machineCandTrue t name →
      ∀ e t', lnMSLoop noFaults msl t = (e, t') → machineCandTrue t' name := by
  induction msl with
  | nil =>
    intro t name h e t' heq
    cases heq
    exact h
  | cons ms rest ih =>
    intro t name h e t' heq
    simp only [lnMSLoop] at heq
    rcases hml : lnMachineLoop noFaults (listMachines t ms.selector) t with ⟨e1, t1⟩
    rw [hml] at heq
    cases e1 with
    | some e0 =>
      cases heq
      exact lnMachineLoop_preserves_machineCandTrue _ t name h _ t' hml
    | none =>
      exact ih t1 name (lnMachineLoop_preserves_machineCandTrue _ t name h _ t1 hml) e t' heq

theorem lnMSLoop_preserves_nodeCandTrue (msl : List MachineSet) :
    ∀ (t : ClusterState) (name : String), nodeCandTrue t name →
      ∀ e t', lnMSLoop noFaults msl t = (e, t') → nodeCandTrue t' name := by
  induction msl with
  | nil =>
    intro t name h e t' heq
    cases heq
    exact h
  | cons ms rest ih =>
    intro t name h e t' heq
    simp only [lnMSLoop] at heq
    rcases hml : lnMachineLoop noFaults (listMachines t ms.selector) t with ⟨e1, t1⟩
    rw [hml] at heq
    cases e1 with
    | some e0 =>
      cases heq
      exact lnMachineLoop_preserves_nodeCandTrue _ t name h _ t' hml
    | none =>
      exact ih t1 name (lnMachineLoop_preserves_nodeCandTrue _ t name h _ t1 hml) e t' heq

/-! ### The candidate-labeling pass -/

theorem machineCandTrue_patch_self (t : ClusterState) (x : String) (l : Labels) :
    machineCandTrue (patchMachineLabels t x
      (mergeStringMaps l [(LabelKeyMachineCandidateForUpdate, "true")])) x := by
  intro m' hm hn
  simp only [patchMachineLabels, List.mem_map] at hm
  obtain ⟨m0, hm0, hrep⟩ := hm
  by_cases hc : m0.name == x
  · rw [if_pos hc] at hrep
    subst hrep
    exact candPatch_label_true l
  · rw [if_neg hc] at hrep
    subst hrep
    exact absurd hn (by simpa using hc)

theorem updateNode_names (s : ClusterState) (n : Node) :
    (updateNode s n).nodes.map Node.name = s.nodes.map Node.name := by
  simp only [updateNode, List.map_map]
  apply List.map_congr_left
  intro n0 _
  simp only [Function.comp_apply]
  by_cases hc : n0.name == n.name
  · rw [if_pos hc]
    exact (beq_iff_eq.mp hc).symm
  · rw [if_neg hc]

theorem exists_node_same_name (l2 l : List Node)
    (h : l2.map Node.name = l.map Node.name) (n0 : Node) (hm : n0 ∈ l) :
    ∃ n2 ∈ l2, n2.name = n0.name := by
  have hmem : n0.name ∈ l2.map Node.name := by
    rw [h]
    exact List.mem_map_of_mem _ hm
  obtain ⟨n2, hn2, he⟩ := List.mem_map.mp hmem
  exact ⟨n2, hn2, he⟩

theorem machinesEvolved_map (l : List Machine) (f : Machine → Machine)
    (h : ∀ m0 ∈ l, (f m0).name = m0.name ∧
      ∀ k, k ≠ LabelKeyMachineCandidateForUpdate →
        getLabel (f m0).labels k = getLabel m0.labels k) :
    machinesEvolved l (l.map f) := by
  unfold machinesEvolved
  rw [List.forall₂_map_right_iff]
  exact List.forall₂_same.mpr h

theorem nodesEvolved_map (l : List Node) (f : Node → Node)
    (h : ∀ n0 ∈ l, (f n0).name = n0.name ∧ (f n0).unschedulable = n0.unschedulable ∧
      (∀ k, k ≠ LabelKeyMachineCandidateForUpdate →
        getLabel (f n0).labels k = getLabel n0.labels k) ∧
      (getLabel n0.labels LabelKeyMachineCandidateForUpdate = "true" →
        getLabel (f n0).labels LabelKeyMachineCandidateForUpdate = "true")) :
    nodesEvolved l (l.map f) := by
  unfold nodesEvolved
  rw [List.forall₂_map_right_iff]
  exact List.forall₂_same.mpr h

theorem lnMachineLoop_noFaults_pass (ML : List Machine) :
    ∀ t : ClusterState,
      (∀ m ∈ ML, ∀ m' ∈ t.machines, m'.name = m.name → m'.labels = m.labels) →
      (ML.map Machine.name).Nodup →
      (t.nodes.map Node.name).Nodup →
      ∃ t', lnMachineLoop noFaults ML t = (none, t') ∧
        machinesEvolved t.machines t'.machines ∧
        nodesEvolved t.nodes t'.nodes ∧
        ∀ m ∈ ML, getLabel m.labels NodeLabelKey ≠ "" →
          machineCandTrue t' m.name ∧
          ∀ node ∈ t.nodes, node.name = getLabel m.labels NodeLabelKey →
            nodeCandTrue t' node.name := by
  induction ML with
  | nil =>
    intro t _ _ _
    refine ⟨t, rfl, machinesEvolved_refl _, nodesEvolved_refl _, ?_⟩
    intro m hm
    simp at hm
  | cons m rest ih =>
    intro t hsnap hMLnodup hnodupN
    have hMLtail : (rest.map Machine.name).Nodup := by
      simp only [List.map_cons, List.nodup_cons] at hMLnodup
      exact hMLnodup.2
    have hheadnotin : m.name ∉ rest.map Machine.name := by
      simp only [List.map_cons, List.nodup_cons] at hMLnodup
      exact hMLnodup.1
    simp only [lnMachineLoop]
    by_cases h1 : (getLabel m.labels NodeLabelKey != "") = true
    · rw [if_pos h1]
      simp only [noFaults_patch, Bool.false_eq_true, if_false]
      have hm1 : machineCandTrue (patchMachineLabels t m.name
          (mergeStringMaps m.labels [(LabelKeyMachineCandidateForUpdate, "true")])) m.name :=
        machineCandTrue_patch_self t m.name m.labels
      have hsnap1 : ∀ m2 ∈ rest, ∀ m' ∈ (patchMachineLabels t m.name
          (mergeStringMaps m.labels [(LabelKeyMachineCandidateForUpdate, "true")])).machines,
          m'.name = m2.name → m'.labels = m2.labels := by
        intro m2 hm2 m' hm' hname
        have hne : m2.name ≠ m.name := by
          intro hcon
          exact hheadnotin (hcon ▸ List.mem_map_of_mem _ hm2)
        simp only [patchMachineLabels, List.mem_map] at hm'
        obtain ⟨m0, hm0, hrep⟩ := hm'
        by_cases hc : m0.name == m.name
        · rw [if_pos hc] at hrep
          subst hrep
          exact absurd (hname.symm.trans (beq_iff_eq.mp hc)) hne
        · rw [if_neg hc] at hrep
          subst hrep
          exact hsnap m2 (List.mem_cons_of_mem _ hm2) m0 hm0 hname
      have hevol1 : machinesEvolved t.machines (patchMachineLabels t m.name
          (mergeStringMaps m.labels [(LabelKeyMachineCandidateForUpdate, "true")])).machines := by
        refine machinesEvolved_map t.machines _ ?_
        intro m0 hm0
        by_cases hc : m0.name == m.name
        · rw [if_pos hc]
          refine ⟨rfl, ?_⟩
          intro k hk
          have hlbls : m0.labels = m.labels :=
            hsnap m (List.mem_cons_self _ _) m0 hm0 (beq_iff_eq.mp hc)
          rw [hlbls, mergeSingle_eq_setLabel]
          exact getLabel_setLabel_other m.labels _ _ k hk
        · rw [if_neg hc]
          exact ⟨rfl, fun _ _ => rfl⟩
      cases hn : getNode (patchMachineLabels t m.name
          (mergeStringMaps m.labels [(LabelKeyMachineCandidateForUpdate, "true")]))
          (getLabel m.labels NodeLabelKey) with
      | none =>
        simp only [hn]
        obtain ⟨t', heq, hev, hnev, hconc⟩ := ih _ hsnap1 hMLtail hnodupN
        refine ⟨t', heq, machinesEvolved_trans hevol1 hev, hnev, ?_⟩
        intro m0 hm0 hlbl
        rcases List.mem_cons.mp hm0 with hh | hh
        · subst hh
          refine ⟨lnMachineLoop_preserves_machineCandTrue rest _ _ hm1 _ _ heq, ?_⟩
          intro node hnode hx
          exfalso
          have hfind := hn
          simp only [getNode, List.find?_eq_none] at hfind
          exact absurd (beq_iff_eq.mpr hx) (hfind node hnode)
        · exact hconc m0 hh hlbl
      | some node =>
        simp only [hn]
        have hnodemem : node ∈ t.nodes := by
          have := List.mem_of_find?_eq_some hn
          exact this
        have hnodename : node.name = getLabel m.labels NodeLabelKey := by
          have h' := hn
          simp only [getNode] at h'
          have h2 := @List.find?_some _ (fun n => n.name == getLabel m.labels NodeLabelKey)
            node _ h'
          exact beq_iff_eq.mp h2
        by_cases h2 : (getLabel node.labels LabelKeyMachineCandidateForUpdate == "true") = true
        · rw [if_pos h2]
          obtain ⟨t', heq, hev, hnev, hconc⟩ := ih _ hsnap1 hMLtail hnodupN
          have hnodecand : nodeCandTrue (patchMachineLabels t m.name
              (mergeStringMaps m.labels [(LabelKeyMachineCandidateForUpdate, "true")]))
              node.name := by
            intro n' hn' hx
            have : n' = node := List.inj_on_of_nodup_map hnodupN hn' hnodemem
              (by rw [hx])
            subst this
            exact beq_iff_eq.mp h2
          refine ⟨t', heq, machinesEvolved_trans hevol1 hev, hnev, ?_⟩
          intro m0 hm0 hlbl
          rcases List.mem_cons.mp hm0 with hh | hh
          · subst hh
            refine ⟨lnMachineLoop_preserves_machineCandTrue rest _ _ hm1 _ _ heq, ?_⟩
            intro node0 hnode0 hx
            have hpersist := lnMachineLoop_preserves_nodeCandTrue rest _ _ hnodecand _ _ heq
            have : node0.name = node.name := hx.trans hnodename.symm
            rw [this]
            exact hpersist
          · exact hconc m0 hh hlbl
        · rw [if_neg h2]
          simp only [noFaults_update, Bool.false_eq_true, if_false]
          have hsnap2 : ∀ m2 ∈ rest, ∀ m' ∈ (updateNode (patchMachineLabels t m.name
              (mergeStringMaps m.labels [(LabelKeyMachineCandidateForUpdate, "true")]))
              { node with labels := setLabel node.labels LabelKeyMachineCandidateForUpdate "true" }).machines,
              m'.name = m2.name → m'.labels = m2.labels := by
            intro m2 hm2 m' hm' hname
            exact hsnap1 m2 hm2 m' hm' hname
          have hnodup2 : ((updateNode (patchMachineLabels t m.name
              (mergeStringMaps m.labels [(LabelKeyMachineCandidateForUpdate, "true")]))
              { node with labels := setLabel node.labels LabelKeyMachineCandidateForUpdate "true" }).nodes.map Node.name).Nodup := by
            rw [updateNode_names]
            exact hnodupN
          obtain ⟨t', heq, hev, hnev, hconc⟩ := ih _ hsnap2 hMLtail hnodup2
          have hnev1 : nodesEvolved t.nodes (updateNode (patchMachineLabels t m.name
              (mergeStringMaps m.labels [(LabelKeyMachineCandidateForUpdate, "true")]))
              { node with labels := setLabel node.labels LabelKeyMachineCandidateForUpdate "true" }).nodes := by
            refine nodesEvolved_map t.nodes _ ?_
            intro n0 hn0
            by_cases hc : n0.name == node.name
            · have hn0eq : n0 = node := List.inj_on_of_nodup_map hnodupN hn0 hnodemem
                (beq_iff_eq.mp hc)
              subst hn0eq
              rw [if_pos hc]
              refine ⟨rfl, rfl, ?_, ?_⟩
              · intro k hk
                exact getLabel_setLabel_other n0.labels _ _ k hk
              · intro _
                exact getLabel_setLabel_self n0.labels _ _
            · rw [if_neg hc]
              exact ⟨rfl, rfl, fun _ _ => rfl, fun h => h⟩
          have hnodecand : nodeCandTrue (updateNode (patchMachineLabels t m.name
              (mergeStringMaps m.labels [(LabelKeyMachineCandidateForUpdate, "true")]))
              { node with labels := setLabel node.labels LabelKeyMachineCandidateForUpdate "true" })
              node.name := by
            intro n' hn' hx
            simp only [updateNode, List.mem_map] at hn'
            obtain ⟨n0, hn0, hrep⟩ := hn'
            by_cases hc : n0.name == node.name
            · rw [if_pos hc] at hrep
              subst hrep
              exact getLabel_setLabel_self node.labels _ _
            · rw [if_neg hc] at hrep
              subst hrep
              exact absurd (beq_iff_eq.mpr hx) (by simpa using hc)
          have hm1' : machineCandTrue (updateNode (patchMachineLabels t m.name
              (mergeStringMaps m.labels [(LabelKeyMachineCandidateForUpdate, "true")]))
              { node with labels := setLabel node.labels LabelKeyMachineCandidateForUpdate "true" })
              m.name :=
            machineCandTrue_machines_eq _ _ _ hm1 (updateNode_machines _ _)
          refine ⟨t', heq, machinesEvolved_trans hevol1 hev, nodesEvolved_trans hnev1 hnev, ?_⟩
          intro m0 hm0 hlbl
          rcases List.mem_cons.mp hm0 with hh | hh
          · subst hh
            refine ⟨lnMachineLoop_preserves_machineCandTrue rest _ _ hm1' _ _ heq, ?_⟩
            intro node0 hnode0 hx
            have hpersist := lnMachineLoop_preserves_nodeCandTrue rest _ _ hnodecand _ _ heq
            have : node0.name = node.name := hx.trans hnodename.symm
            rw [this]
            exact hpersist
          · obtain ⟨hc1, hc2⟩ := hconc m0 hh hlbl
            refine ⟨hc1, ?_⟩
            intro node0 hnode0 hx
            obtain ⟨n2, hn2, hn2name⟩ := exists_node_same_name
              (updateNode (patchMachineLabels t m.name
                (mergeStringMaps m.labels [(LabelKeyMachineCandidateForUpdate, "true")]))
                { node with labels := setLabel node.labels LabelKeyMachineCandidateForUpdate "true" }).nodes
              t.nodes (by rw [updateNode_names]; rfl) node0 hnode0

            have := hc2 n2 hn2 (hn2name.trans hx)
            rw [← hn2name]
            exact this
    · rw [if_neg h1]
      obtain ⟨t', heq, hev, hnev, hconc⟩ := ih t
        (fun m2 hm2 => hsnap m2 (List.mem_cons_of_mem _ hm2)) hMLtail hnodupN
      refine ⟨t', heq, hev, hnev, ?_⟩
      intro m0 hm0 hlbl
      rcases List.mem_cons.mp hm0 with hh | hh
      · subst hh
        exact absurd hlbl (by simpa using h1)
      · exact hconc m0 hh hlbl

theorem lnMSLoop_noFaults_full (msl : List MachineSet) :
    ∀ t : ClusterState,
      (∀ ms ∈ msl, ∀ p ∈ ms.selector, p.1 ≠ LabelKeyMachineCandidateForUpdate) →
      (t.machines.map Machine.name).Nodup →
      (t.nodes.map Node.name).Nodup →
      ∃ t', lnMSLoop noFaults msl t = (none, t') ∧
        ∀ ms ∈ msl, ∀ m ∈ listMachines t ms.selector,
          getLabel m.labels NodeLabelKey ≠ "" →
            machineCandTrue t' m.name ∧
            ∀ node ∈ t.nodes, node.name = getLabel m.labels NodeLabelKey →
              nodeCandTrue t' node.name := by
  induction msl with
  | nil =>
    intro t _ _ _
    refine ⟨t, rfl, ?_⟩
    intro ms hms
    simp at hms
  | cons ms rest ih =>
    intro t hsel hnodupM hnodupN
    have hMLsub : (listMachines t ms.selector).Sublist t.machines :=
      List.filter_sublist t.machines
    have hMLnodup : ((listMachines t ms.selector).map Machine.name).Nodup :=
      (hMLsub.map Machine.name).nodup hnodupM
    have hsnap : ∀ m ∈ listMachines t ms.selector, ∀ m' ∈ t.machines,
        m'.name = m.name → m'.labels = m.labels := by
      intro m hm m' hm' hname
      have hmem : m ∈ t.machines := hMLsub.subset hm
      have : m' = m := List.inj_on_of_nodup_map hnodupM hm' hmem hname
      rw [this]
    obtain ⟨t1, heq1, hev1, hnev1, hconc1⟩ :=
      lnMachineLoop_noFaults_pass (listMachines t ms.selector) t hsnap hMLnodup hnodupN
    have hnodupM1 : (t1.machines.map Machine.name).Nodup := by
      rw [machinesEvolved_names hev1]
      exact hnodupM
    have hnodupN1 : (t1.nodes.map Node.name).Nodup := by
      rw [nodesEvolved_names hnev1]
      exact hnodupN
    obtain ⟨t', heq2, hconc2⟩ := ih t1
      (fun ms0 hms0 => hsel ms0 (List.mem_cons_of_mem _ hms0)) hnodupM1 hnodupN1
    refine ⟨t', ?_, ?_⟩
    · simp only [lnMSLoop, heq1]
      exact heq2
    · intro ms0 hms0 m hm hlbl
      rcases List.mem_cons.mp hms0 with hh | hh
      · subst hh
        obtain ⟨hc1, hc2⟩ := hconc1 m hm hlbl
        refine ⟨lnMSLoop_preserves_machineCandTrue rest _ _ hc1 _ _ heq2, ?_⟩
        intro node hnode hx
        exact lnMSLoop_preserves_nodeCandTrue rest _ _ (hc2 node hnode hx) _ _ heq2
      · have hmem : m ∈ t.machines := (List.filter_sublist t.machines).subset hm
        have hmatch : matchesSelector ms0.selector m.labels = true := by
          have h' := hm
          simp only [listMachines, List.mem_filter] at h'
          exact h'.2
        obtain ⟨m1, hm1mem, hR⟩ := forall₂_mem_left hev1 hmem
        obtain ⟨hm1name, hm1lbl⟩ := hR
        have hm1match : matchesSelector ms0.selector m1.labels = true := by
          rw [matchesSelector_congr ms0.selector m.labels m1.labels
            (fun p hp => hm1lbl p.1 (hsel ms0 (List.mem_cons_of_mem _ hh) p hp))]
          exact hmatch
        have hm1in : m1 ∈ listMachines t1 ms0.selector :=
          List.mem_filter.mpr ⟨hm1mem, hm1match⟩
        have hlbleq : getLabel m1.labels NodeLabelKey = getLabel m.labels NodeLabelKey :=
          hm1lbl NodeLabelKey (by decide)
        have hlbl1 : getLabel m1.labels NodeLabelKey ≠ "" := by
          rw [hlbleq]
          exact hlbl
        obtain ⟨hc1, hc2⟩ := hconc2 ms0 hh m1 hm1in hlbl1
        refine ⟨by rw [← hm1name]; exact hc1, ?_⟩
        intro node0 hnode0 hx
        obtain ⟨n2, hn2, hn2name⟩ := exists_node_same_name t1.nodes t.nodes
          (nodesEvolved_names hnev1) node0 hnode0
        have := hc2 n2 hn2 (by rw [hn2name, hx, ← hlbleq])
        rw [← hn2name]
        exact this

/-- Claim C6, counterexample: `labelNodesBackingMachineSets` skips every machine
    whose `node` label is empty (deployment_inplace.go:413-417 `continue`s), so a
    machine of an old MachineSet that is not yet marked can come out of the call
    still without `candidate-for-update=true` — refuting "every Machine belonging
    to any old MachineSet ... gets the label". In `stC6` the old-set machine
    `mNoNode` is listed by the selector, is unmarked, and stays unmarked while the
    call succeeds. -/
theorem C6_counterexample_no_node_label_skipped :
    (labelNodesBackingMachineSets noFaults stC6 [msOldA]).1 = none ∧
    mNoNode ∈ listMachines stC6 msOldA.selector ∧
    getLabel mNoNode.labels LabelKeyMachineCandidateForUpdate ≠ "true" ∧
    ∀ m' ∈ (labelNodesBackingMachineSets noFaults stC6 [msOldA]).2.machines,
      getLabel m'.labels LabelKeyMachineCandidateForUpdate ≠ "true" := by
  decide

/-- Claim C6, amended: under a fault-free client, when no selector key collides
    with the candidate label and machine and node names are unique, the call
    succeeds and every machine of any listed old MachineSet THAT CARRIES A
    NON-EMPTY `node` LABEL ends with `candidate-for-update=true`, and so does the
    stored node that backs it (when that node exists). Machines without a `node`
    label are skipped by the code. -/
theorem C6_amended_candidates_labeled (s : ClusterState) (machineSets : List MachineSet)
    (hsel : ∀ ms ∈ machineSets, ∀ p ∈ ms.selector, p.1 ≠ LabelKeyMachineCandidateForUpdate)
    (hM : (s.machines.map Machine.name).Nodup)
    (hN : (s.nodes.map Node.name).Nodup) :
    ∃ t', labelNodesBackingMachineSets noFaults s machineSets = (none, t') ∧
      ∀ ms ∈ machineSets, ∀ m ∈ listMachines s ms.selector,
        getLabel m.labels NodeLabelKey ≠ "" →
          machineCandTrue t' m.name ∧
          ∀ node ∈ s.nodes, node.name = getLabel m.labels NodeLabelKey →
            nodeCandTrue t' node.name := by
  obtain ⟨t', h1, h2⟩ := lnMSLoop_noFaults_full machineSets s hsel hM hN
  exact ⟨t', h1, h2⟩

/-- Claim C6, witness: the amended theorem applied to the concrete state `stC6b`
    (one old machine set, machine `mw` backed by node `nw`). -/
theorem C6_amended_witness :
    ((∀ ms ∈ [msOldA], ∀ p ∈ ms.selector, p.1 ≠ LabelKeyMachineCandidateForUpdate) ∧
     (stC6b.machines.map Machine.name).Nodup ∧
     (stC6b.nodes.map Node.name).Nodup) ∧
    ∃ t', labelNodesBackingMachineSets noFaults stC6b [msOldA] = (none, t') ∧
      ∀ ms ∈ [msOldA], ∀ m ∈ listMachines stC6b ms.selector,
        getLabel m.labels NodeLabelKey ≠ "" →
          machineCandTrue t' m.name ∧
          ∀ node ∈ stC6b.nodes, node.name = getLabel m.labels NodeLabelKey →
            nodeCandTrue t' node.name :=
  ⟨⟨by decide, by decide, by decide⟩,
    C6_amended_candidates_labeled stC6b [msOldA] (by decide) (by decide) (by decide)⟩

end MCM
